import Mathlib

/-!
Verification of the provisioned-concurrency reconciliation plugin
(`src/index.ts`, class `ProvisionedConcurrency`).

The plugin is embedded shallowly:

* The provider's durable state is the set of provisioned-concurrency
  records, keyed by function name; we model it as `RecMap : String → List
  PCRecord`.  Every provider request the plugin issues
  (`listVersionsByFunction`, `listProvisionedConcurrencyConfigs`,
  `putProvisionedConcurrencyConfig`, `deleteProvisionedConcurrencyConfig`,
  `getProvisionedConcurrencyConfig`) touches only the records of the
  function named in the request, so the per-function operations are
  written over that function's record list and lifted pointwise.
* The environment `Env` bundles everything read-only during a run: the
  declared manifest (`serverless.service.functions`), service/stage,
  the `custom.provisionedConcurrency.maxPercent` setting, the provider's
  version listing, and the success/failure outcome of each provider call
  (so that the error-handling paths of the source are reachable in the
  model).
* Mutating requests are recorded in a trace of `Op` values so that
  theorems can speak about which put/delete requests a run issues.
* JavaScript truthiness (`x || null`, `!version`, `null > n`) is embedded
  by the `jsOrNull*` / `jsFalsyStr` / `jsNum` helpers.
* The validator's JavaScript number arithmetic —
  `Math.floor(reserved * (maxPercent / 100))` and
  `Math.round(maxPercent * 100)` — is IEEE 754 binary64: it is modelled
  exactly by `JsFloat` (mantissa–exponent pairs) with round-to-nearest,
  ties-to-even on every division and multiplication, so the computed
  bound is the program's (e.g. `floor(150 * (82/100))` is 122 in doubles,
  one below the exact rational floor 123).
-/

/-! ## Manifest data model (`interfaces.ts` shapes used by `index.ts`) -/

/-- The `concurrency` block a function may declare in `serverless.yml`. -/
structure ConcurrencyBlock where
  version : Option String
  provisioned : Option Int
deriving DecidableEq, Repr

/-- A declared function entry (`ServerlessFunction`): only the fields the
plugin reads. -/
structure ServerlessFunction where
  concurrency : Option ConcurrencyBlock
  reservedConcurrency : Option Int
deriving DecidableEq, Repr

/-- `NormalizedFunctionConfig` as produced by `_normalizeConfig`. -/
structure NormalizedFunctionConfig where
  reserved : Option Int
  provisioned : Option Int
  version : Option String
deriving DecidableEq, Repr

/-- `FunctionWithConfig`: a declared function name with its normalized
configuration. -/
structure FunctionWithConfig where
  name : String
  config : NormalizedFunctionConfig
deriving DecidableEq, Repr

/-- JavaScript `x || null` on an optional number: `0` is falsy and becomes
`null`. -/
def jsOrNullInt (v : Option Int) : Option Int :=
  match v with
  | none => none
  | some n => if n = 0 then none else some n

/-- JavaScript `x || null` on an optional string: `""` is falsy and becomes
`null`. -/
def jsOrNullStr (v : Option String) : Option String :=
  match v with
  | none => none
  | some s => if s = "" then none else some s

/-- JavaScript falsiness of an optional string (`!version`). -/
def jsFalsyStr (v : Option String) : Bool :=
  match v with
  | none => true
  | some s => s = ""

/-- JavaScript numeric coercion of `null` in comparisons (`null` compares
as `0`). -/
def jsNum (v : Option Int) : Int := v.getD 0

/-- Substring test embedding JavaScript `String.prototype.includes`:
helper scanning every suffix of the haystack. -/
def jsIncludesAux (needle : List Char) : List Char → Bool
  | [] => needle.isEmpty
  | c :: rest => needle.isPrefixOf (c :: rest) || jsIncludesAux needle rest

/-- JavaScript `s.includes(sub)`. -/
def jsIncludes (s sub : String) : Bool := jsIncludesAux sub.data s.data

/-! ## Version parsing and resolution (`_getLatestVersion`) -/

/-- Accumulates the leading decimal digits of a character list, stopping
at the first non-digit, exactly as `parseInt` does after its sign/space
handling. -/
def digitsAcc : List Char → Nat → Nat
  | [], acc => acc
  | c :: rest, acc => if c.isDigit then digitsAcc rest (acc * 10 + (c.toNat - 48)) else acc

/-- JavaScript `parseInt(s)` restricted to the unsigned decimal numerals
the provider uses for version identifiers; `none` models `NaN`. -/
def jsParseInt (s : String) : Option Int :=
  match s.data with
  | [] => none
  | c :: _ => if c.isDigit then some (digitsAcc s.data 0) else none

/-- Sort key used by the comparator `(a, b) => parseInt(b.Version) -
parseInt(a.Version)`; a non-numeric string is given key `0` (the source
never compares one, since `$LATEST` is filtered out first). -/
def versionKey (s : String) : Int := (jsParseInt s).getD 0

/-- One step of the stable descending insertion sort embedding
`Array.prototype.sort` with the numeric descending comparator. -/
def insertVersionDesc (v : String) : List String → List String
  | [] => [v]
  | w :: rest =>
    if versionKey v > versionKey w then v :: w :: rest else w :: insertVersionDesc v rest

/-- Stable sort of version strings in descending numeric order, embedding
`versions.sort((a, b) => parseInt(b.Version) - parseInt(a.Version))`. -/
def sortVersionsDesc : List String → List String
  | [] => []
  | v :: rest => insertVersionDesc v (sortVersionsDesc rest)

/-! ## Provider state -/

/-- One provisioned-concurrency configuration held by the provider.
`version` is the qualifier the provider keys the record by;
`FunctionArn` is the identifier string the `listProvisionedConcurrencyConfigs`
response carries (in a drift-free state it encodes `version`, but the
model lets them disagree so malformed identifiers are expressible). -/
structure PCRecord where
  version : String
  FunctionArn : String
  count : Int
deriving DecidableEq, Repr

/-- The provider's capacity-record store, keyed by function name. -/
abbrev RecMap := String → List PCRecord

/-- Pointwise update of the store at one function name. -/
def updateMap (m : RecMap) (fn : String) (recs : List PCRecord) : RecMap :=
  fun g => if g = fn then recs else m g

/-- A mutating provider request issued by the plugin. -/
inductive Op where
  | putOp (functionName version : String) (count : Int)
  | deleteOp (functionName version : String)
deriving DecidableEq, Repr

/-- The function name a mutating request is addressed to. -/
def Op.functionNameOf : Op → String
  | .putOp fn _ _ => fn
  | .deleteOp fn _ => fn

/-- Whether a request is a put-capacity request. -/
def Op.isPut : Op → Bool
  | .putOp _ _ _ => true
  | .deleteOp _ _ => false

/-- Read-only context of one run: manifest, global configuration, and the
outcome of each provider call (`none`/`ok` meaning the call succeeds). -/
structure Env where
  service : String
  stage : String
  maxPercent : Option Int
  functions : List (String × ServerlessFunction)
  listVersions : String → Except String (List String)
  listRecordsOk : String → Option String
  deleteOk : String → String → Option String
  putOk : String → String → Option String
  statusResult : String → String → Except String String

/-! ## Small helpers from the source -/

/-- `_getFunctionName`: the full deployed name `service-stage-name`. -/
def _getFunctionName (env : Env) (functionName : String) : String :=
  env.service ++ "-" ++ env.stage ++ "-" ++ functionName

/-- `_normalizeConfig`. -/
def _normalizeConfig (functionConfig : ServerlessFunction) : NormalizedFunctionConfig :=
  { reserved := jsOrNullInt functionConfig.reservedConcurrency
    provisioned := jsOrNullInt (functionConfig.concurrency.bind (·.provisioned))
    version := jsOrNullStr (functionConfig.concurrency.bind (·.version)) }

/-- `_getConfiguredFunctions`: one `FunctionWithConfig` per declared
function, in declaration order. -/
def _getConfiguredFunctions (env : Env) : List FunctionWithConfig :=
  env.functions.map (fun e => { name := e.1, config := _normalizeConfig e.2 })

/-- Splits a character list on a separator, embedding
`String.prototype.split`. -/
def splitOnChar (sep : Char) : List Char → List (List Char)
  | [] => [[]]
  | c :: rest =>
    let r := splitOnChar sep rest
    if c = sep then [] :: r
    else
      match r with
      | [] => [[c]]
      | h :: t => (c :: h) :: t

/-- `_extractVersionFromArn`: the eighth colon-delimited segment, or
`null` for an empty or too-short identifier. -/
def _extractVersionFromArn (arn : String) : Option String :=
  if arn = "" then none
  else
    let parts := (splitOnChar ':' arn.data).map (fun l => String.mk l)
    if parts.length < 8 then none
    else parts.get? 7

/-- The `FunctionArn` the provider reports for a provisioned-concurrency
record created on `version` of `functionName` (fixed region and account:
the run works in a single logical environment). -/
def mkArn (functionName version : String) : String :=
  "arn:aws:lambda:us-east-1:123456789012:function:" ++ functionName ++ ":" ++ version

/-! ## Version resolution -/

/-- `_getLatestVersion`: lists versions, filters out `$LATEST`, sorts in
descending numeric order and returns the first; errors (as
`NoVersionFoundError`) when nothing remains. -/
def _getLatestVersion (env : Env) (functionName : String) : Except String String :=
  match env.listVersions functionName with
  | .error e => .error e
  | .ok vs =>
    if vs.isEmpty then .error ("No versions found for function " ++ functionName)
    else
      match sortVersionsDesc (vs.filter (fun v => v ≠ "$LATEST")) with
      | [] =>
        .error ("No numbered versions found for function " ++ functionName ++
          ". Only $LATEST version exists.")
      | v :: _ => .ok v

/-- The shared version-selection step of `_deleteConcurrency` and
`_processFunction`: `if (!version || version === 'latest') version =
await this._getLatestVersion(...)`. -/
def resolveVersion (env : Env) (functionName : String) (version : Option String) :
    Except String String :=
  if jsFalsyStr version || version == some "latest" then _getLatestVersion env functionName
  else .ok (version.getD "")

/-! ## Per-function provider operations -/

/-- `_getVersionsWithProvisionedConcurrency`: the function's current
records, degraded to `[]` when the enumeration call raises (the source
catches, logs and returns `[]`). -/
def _getVersionsWithProvisionedConcurrency (env : Env) (functionName : String)
    (recs : List PCRecord) : List PCRecord :=
  match env.listRecordsOk functionName with
  | some _ => []
  | none => recs

/-- `_deleteProvisionedConcurrency`: issues the delete request; on provider
failure the error is logged and re-thrown (modelled by the `Option String`
error component). -/
def _deleteProvisionedConcurrency (env : Env) (functionName version : String)
    (recs : List PCRecord) : List PCRecord × List Op × Option String :=
  match env.deleteOk functionName version with
  | some e => (recs, [Op.deleteOp functionName version], some e)
  | none =>
    (recs.filter (fun r => r.version ≠ version), [Op.deleteOp functionName version], none)

/-- Loop body of `_managePreviousConcurrency`: walks the listed records,
skips records whose identifier yields no version or whose version is the
target, and deletes the rest; a failed delete aborts the loop with the
error. -/
def managePreviousLoop (env : Env) (functionName target : String) :
    List PCRecord → List PCRecord → List PCRecord × List Op × Option String
  | [], recs => (recs, [], none)
  | r :: rest, recs =>
    match _extractVersionFromArn r.FunctionArn with
    | none => managePreviousLoop env functionName target rest recs
    | some v =>
      if v = target then managePreviousLoop env functionName target rest recs
      else
        match _deleteProvisionedConcurrency env functionName v recs with
        | (recs1, tr1, some e) => (recs1, tr1, some e)
        | (recs1, tr1, none) =>
          let out := managePreviousLoop env functionName target rest recs1
          (out.1, tr1 ++ out.2.1, out.2.2)

/-- `_managePreviousConcurrency`. -/
def _managePreviousConcurrency (env : Env) (functionName version : String)
    (recs : List PCRecord) : List PCRecord × List Op × Option String :=
  let versionsWithConcurrency := _getVersionsWithProvisionedConcurrency env functionName recs
  if versionsWithConcurrency.isEmpty then (recs, [], none)
  else managePreviousLoop env functionName version versionsWithConcurrency recs

/-- Loop body of `_manageEmptyConfiguration`: deletes every record whose
identifier yields a version. -/
def manageEmptyLoop (env : Env) (functionName : String) :
    List PCRecord → List PCRecord → List PCRecord × List Op × Option String
  | [], recs => (recs, [], none)
  | r :: rest, recs =>
    match _extractVersionFromArn r.FunctionArn with
    | none => manageEmptyLoop env functionName rest recs
    | some v =>
      match _deleteProvisionedConcurrency env functionName v recs with
      | (recs1, tr1, some e) => (recs1, tr1, some e)
      | (recs1, tr1, none) =>
        let out := manageEmptyLoop env functionName rest recs1
        (out.1, tr1 ++ out.2.1, out.2.2)

/-- `_manageEmptyConfiguration`. -/
def _manageEmptyConfiguration (env : Env) (functionName : String)
    (recs : List PCRecord) : List PCRecord × List Op × Option String :=
  let versionsWithConcurrency := _getVersionsWithProvisionedConcurrency env functionName recs
  manageEmptyLoop env functionName versionsWithConcurrency recs

/-! ## Readiness poller (`_waitForProvisionedConcurrencyReady`) -/

/-- `maxAttempts` of `_waitForProvisionedConcurrencyReady`. -/
def maxAttempts : Nat := 30

/-- `delayMs` of `_waitForProvisionedConcurrencyReady` (milliseconds
between polls; the sleep itself has no effect on provider state). -/
def delayMs : Nat := 10000

/-- Outcome of the readiness wait. -/
inductive WaitResult where
  | ready
  | pollError (e : String)
  | timeout (e : String)
deriving DecidableEq, Repr

/-- The timeout message raised after the attempt budget is exhausted. -/
def timeoutMessage (functionName version : String) : String :=
  "Provisioned concurrency for " ++ functionName ++ ":" ++ version ++
    " did not become ready within timeout"

/-- The polling loop: `poll attempt` is the provider's response to the
status request of that attempt.  A transport error aborts immediately,
`READY` succeeds, any other status consumes one attempt. -/
def waitLoop (functionName version : String) (poll : Nat → Except String String) :
    Nat → Nat → WaitResult
  | _, 0 => .timeout (timeoutMessage functionName version)
  | attempt, fuel + 1 =>
    match poll attempt with
    | .error e => .pollError e
    | .ok st =>
      if st = "READY" then .ready
      else waitLoop functionName version poll (attempt + 1) fuel

/-- `_waitForProvisionedConcurrencyReady`. -/
def _waitForProvisionedConcurrencyReady (functionName version : String)
    (poll : Nat → Except String String) : WaitResult :=
  waitLoop functionName version poll 0 maxAttempts

/-! ## Applying capacity -/

/-- `_setProvisionedConcurrency`: issues the put request (the provider
replaces the record keyed by this qualifier) and then waits for
readiness; any error is re-thrown after logging. -/
def _setProvisionedConcurrency (env : Env) (functionName version : String)
    (provisioned : Int) (recs : List PCRecord) : List PCRecord × List Op × Option String :=
  match env.putOk functionName version with
  | some e => (recs, [Op.putOp functionName version provisioned], some e)
  | none =>
    let recs1 := recs.filter (fun r => r.version ≠ version) ++
      [{ version := version, FunctionArn := mkArn functionName version, count := provisioned }]
    match _waitForProvisionedConcurrencyReady functionName version
        (fun _ => env.statusResult functionName version) with
    | .ready => (recs1, [Op.putOp functionName version provisioned], none)
    | .pollError e => (recs1, [Op.putOp functionName version provisioned], some e)
    | .timeout e => (recs1, [Op.putOp functionName version provisioned], some e)

/-- `_processFunction` (apply-phase step): resolve the version, list the
records, and put capacity when a positive amount is configured. -/
def _processFunction (env : Env) (f : FunctionWithConfig) (recs : List PCRecord) :
    List PCRecord × List Op × Option String :=
  let functionName := _getFunctionName env f.name
  match resolveVersion env functionName f.config.version with
  | .error e => (recs, [], some e)
  | .ok version =>
    let _ := _getVersionsWithProvisionedConcurrency env functionName recs
    match f.config.provisioned with
    | none => (recs, [], none)
    | some c =>
      if c > 0 then _setProvisionedConcurrency env functionName version c recs
      else (recs, [], none)

/-- `_deleteConcurrency` (validate-phase step): skips warm-keeper
functions, resolves the version, and reconciles previous records; every
error of the step is caught and logged, so the step itself never
raises. -/
def _deleteConcurrency (env : Env) (f : FunctionWithConfig) (recs : List PCRecord) :
    List PCRecord × List Op :=
  if jsIncludes f.name "warmUpPlugin" then (recs, [])
  else
    let functionName := _getFunctionName env f.name
    match resolveVersion env functionName f.config.version with
    | .error _ => (recs, [])
    | .ok version =>
      match f.config.provisioned with
      | none =>
        let out := _manageEmptyConfiguration env functionName recs
        (out.1, out.2.1)
      | some c =>
        if c = 0 then
          let out := _manageEmptyConfiguration env functionName recs
          (out.1, out.2.1)
        else
          let out := _managePreviousConcurrency env functionName version recs
          (out.1, out.2.1)

/-! ## Capacity validation -/

/-- The effective ceiling of `_validateProvisionedConcurrency`: the
normalized `reserved` field when present, otherwise the declared
`reservedConcurrency` of the original manifest entry. -/
def effectiveReserved (env : Env) (f : FunctionWithConfig) : Option Int :=
  match f.config.reserved with
  | some r => some r
  | none =>
    (((env.functions.find? (fun e => e.1 = f.name)).map Prod.snd).getD
      { concurrency := none, reservedConcurrency := none }).reservedConcurrency

/-! ### Exact model of the IEEE-double arithmetic the validator performs

The source computes the bound in JavaScript numbers (IEEE 754 binary64):
`maxPercent / 100`, `reserved * maxPercent`, `Math.floor`, `Math.round`.
Binary64 results are rationals, so each operation is modelled exactly: a
value is a mantissa–exponent pair `mant · 2^exp` with `|mant| ∈ [2^52,
2^53)` (or zero), and each arithmetic step rounds its exact rational
result to the nearest such value, ties to even — precisely the IEEE
round-to-nearest-even rule that governs `/` and `*` on doubles in the
normal range (the only range a manifest's integers can reach; overflow
and subnormals are out of the modelled range). -/

/-- Smallest normal mantissa, `2^52`. -/
def mantMin : Nat := 2 ^ 52

/-- One past the largest mantissa, `2^53`. -/
def mantMax : Nat := 2 ^ 53

/-- Halves the value `(A / B) · 2^e` (by doubling `B`) until `A / B` is
below `2^53`; the fuel (4200) covers the whole binary64 exponent range. -/
def floatNormDown : Nat → Nat → Nat → Int → (Nat × Nat × Int)
  | 0, A, B, e => (A, B, e)
  | fuel + 1, A, B, e =>
    if B * mantMax ≤ A then floatNormDown fuel A (B * 2) (e + 1) else (A, B, e)

/-- Doubles `A` until `A / B` reaches `2^52`, preserving the value
`(A / B) · 2^e`. -/
def floatNormUp : Nat → Nat → Nat → Int → (Nat × Nat × Int)
  | 0, A, B, e => (A, B, e)
  | fuel + 1, A, B, e =>
    if A < B * mantMin then floatNormUp fuel (A * 2) B (e - 1) else (A, B, e)

/-- Rounds the positive rational `a / b` to the nearest binary64 value
(ties to even), returned as a mantissa–exponent pair. -/
def floatRoundPos (a b : Nat) : Nat × Int :=
  let n1 := floatNormDown 4200 a b 0
  let n2 := floatNormUp 4200 n1.1 n1.2.1 n1.2.2
  let A := n2.1
  let B := n2.2.1
  let e := n2.2.2
  let q := A / B
  let r := A % B
  let m :=
    if B < 2 * r then q + 1
    else if 2 * r < B then q
    else if q % 2 = 0 then q else q + 1
  if m = mantMax then (mantMin, e + 1) else (m, e)

/-- A finite binary64 value in the normal range (or zero): `mant · 2^exp`. -/
structure JsFloat where
  mant : Int
  exp : Int
deriving DecidableEq, Repr

/-- The binary64 value nearest to `num / den`: JavaScript division of
exactly-represented operands, e.g. `maxPercent / 100`, or a decimal
literal such as `0.8 = floatOfRat 8 10`. -/
def floatOfRat (num : Int) (den : Nat) : JsFloat :=
  if num = 0 ∨ den = 0 then { mant := 0, exp := 0 }
  else if 0 < num then
    let p := floatRoundPos num.toNat den
    { mant := (p.1 : Int), exp := p.2 }
  else
    let p := floatRoundPos (-num).toNat den
    { mant := -(p.1 : Int), exp := p.2 }

/-- JavaScript `r * d` for an integer `r` (exactly represented, as every
integer a manifest can hold is) and a double `d`: the exact product
`r · mant · 2^exp` rounded to the nearest binary64 value. -/
def floatMulInt (r : Int) (d : JsFloat) : JsFloat :=
  if r * d.mant = 0 then { mant := 0, exp := 0 }
  else if 0 < r * d.mant then
    let p := floatRoundPos (r * d.mant).toNat 1
    { mant := (p.1 : Int), exp := p.2 + d.exp }
  else
    let p := floatRoundPos (-(r * d.mant)).toNat 1
    { mant := -(p.1 : Int), exp := p.2 + d.exp }

/-- `Math.floor` of a double: the floor of its exact value (always itself
exactly representable, so no further rounding occurs). -/
def floorD (d : JsFloat) : Int :=
  if 0 ≤ d.exp then d.mant * ((2 : Int) ^ d.exp.toNat)
  else Int.fdiv d.mant ((2 : Int) ^ (-d.exp).toNat)

/-- `Math.round` of a double: the integer closest to its exact value,
ties toward positive infinity (ECMA-262), i.e. the floor of value + 1/2
in exact arithmetic. -/
def mathRoundD (d : JsFloat) : Int :=
  if 0 ≤ d.exp then d.mant * ((2 : Int) ^ d.exp.toNat)
  else
    let D := (2 : Int) ^ (-d.exp).toNat
    Int.fdiv (2 * d.mant + D) (2 * D)

/-- `_getProvisionedConcurrencyPercent`: the double
`customConfig.maxPercent / 100`, defaulting to the literal `0.8`. -/
def _getProvisionedConcurrencyPercent (env : Env) : JsFloat :=
  match env.maxPercent with
  | some p => floatOfRat p 100
  | none => floatOfRat 8 10

/-- The bound the validator enforces:
`Math.floor(reservedConcurrency * maxPercent)` in double precision. -/
def maxProvisionedFor (reservedConcurrency : Int) (maxPercent : JsFloat) : Int :=
  floorD (floatMulInt reservedConcurrency maxPercent)

/-- `_validateProvisionedConcurrency`: with a known ceiling, fails when
the configured capacity exceeds `Math.floor(reserved * maxPercent)`, the
product and floor computed in IEEE doubles as in the source. -/
def _validateProvisionedConcurrency (env : Env) (f : FunctionWithConfig) : Option String :=
  let functionName := _getFunctionName env f.name
  let maxPercent := _getProvisionedConcurrencyPercent env
  let percentDisplay := mathRoundD (floatMulInt 100 maxPercent)
  match effectiveReserved env f with
  | none => none
  | some reservedConcurrency =>
    let maxProvisionedConcurrency := maxProvisionedFor reservedConcurrency maxPercent
    if jsNum f.config.provisioned > maxProvisionedConcurrency then
      some ("Function " ++ functionName ++ " has provisioned concurrency (" ++
        (match f.config.provisioned with
         | some c => toString c
         | none => "null") ++
        ") higher than " ++ toString percentDisplay ++ "% of reserved concurrency (" ++
        toString reservedConcurrency ++ "). Maximum recommended provisioned concurrency is " ++
        toString maxProvisionedConcurrency ++ ". Maximum available provisioned concurrency is " ++
        toString (reservedConcurrency - 1) ++ ".")
    else none

/-- `_validateAllFunctions`: collects the error message of every failing
function, in declaration order. -/
def _validateAllFunctions (env : Env) : List String :=
  (_getConfiguredFunctions env).filterMap (_validateProvisionedConcurrency env)

/-! ## Entry points -/

/-- Result of an entry point: final provider state, issued mutating
requests in order, and the raised error when one propagates to the
caller. -/
structure RunOut where
  m : RecMap
  tr : List Op
  err : Option String

/-- The per-function loop of `validateConcurrency`, threading the
provider state; each step reads and writes only its own function's
records. -/
def validatePhaseLoop (env : Env) : List FunctionWithConfig → RecMap → RecMap × List Op
  | [], m => (m, [])
  | f :: rest, m =>
    let fn := _getFunctionName env f.name
    let step := _deleteConcurrency env f (m fn)
    let out := validatePhaseLoop env rest (updateMap m fn step.1)
    (out.1, step.2 ++ out.2)

/-- The aggregate validation-failure message of `validateConcurrency`. -/
def aggregateMessage (validationErrors : List String) : String :=
  "Validation failed for the following functions:\n\n" ++
    String.intercalate "\n\n" validationErrors ++ "\n\nDeployment process stopped."

/-- `validateConcurrency` (the `validateAll` pre-flight entry point):
validates the whole batch, raising the aggregate error before touching
the provider, then runs `_deleteConcurrency` for every configured
function. -/
def validateConcurrency (env : Env) (m : RecMap) : RunOut :=
  let validationErrors := _validateAllFunctions env
  if validationErrors.isEmpty then
    let functions := _getConfiguredFunctions env
    if functions.isEmpty then { m := m, tr := [], err := none }
    else
      let out := validatePhaseLoop env functions m
      { m := out.1, tr := out.2, err := none }
  else
    { m := m, tr := [], err := some (aggregateMessage validationErrors) }

/-- `validateConcurrencyForFunction` (the `validateOne` pre-flight entry
point). -/
def validateConcurrencyForFunction (env : Env) (optFunction : Option String) (m : RecMap) :
    RunOut :=
  match optFunction with
  | none => { m := m, tr := [], err := none }
  | some functionName =>
    let functions := _getConfiguredFunctions env
    match functions.find? (fun f => f.name = functionName) with
    | none => { m := m, tr := [], err := none }
    | some f =>
      match _validateProvisionedConcurrency env f with
      | some e =>
        { m := m, tr := [],
          err := some ("Validation failed for function " ++ functionName ++ ":\n\n" ++ e ++
            "\n\nDeployment process stopped.") }
      | none =>
        let fn := _getFunctionName env f.name
        let step := _deleteConcurrency env f (m fn)
        { m := updateMap m fn step.1, tr := step.2, err := none }

/-- The per-function loop of `setProvisionedConcurrency`; tasks over
distinct functions touch disjoint provider keys, so the sequential fold
realizes every interleaving of the bounded-parallel pool, and a failing
task does not cancel its siblings (the first error is reported after all
tasks ran). -/
def applyPhaseLoop (env : Env) : List FunctionWithConfig → RecMap → RecMap × List Op × Option String
  | [], m => (m, [], none)
  | f :: rest, m =>
    let fn := _getFunctionName env f.name
    let step := _processFunction env f (m fn)
    let out := applyPhaseLoop env rest (updateMap m fn step.1)
    (out.1, step.2.1 ++ out.2.1,
      match step.2.2 with
      | some e => some e
      | none => out.2.2)

/-- `setProvisionedConcurrency` (the apply entry point): processes every
configured function except the warm-keeper ones. -/
def setProvisionedConcurrency (env : Env) (m : RecMap) : RunOut :=
  let functions := _getConfiguredFunctions env
  if functions.isEmpty then { m := m, tr := [], err := none }
  else
    let out := applyPhaseLoop env
      (functions.filter (fun f => ¬ jsIncludes f.name "warmUpPlugin")) m
    { m := out.1, tr := out.2.1, err := out.2.2 }

/-- One full reconciliation run: the validate entry point followed, when
it succeeds, by the apply entry point (the host invokes the hooks in this
order). -/
def fullRun (env : Env) (m : RecMap) : RunOut :=
  let v := validateConcurrency env m
  match v.err with
  | some e => { m := v.m, tr := v.tr, err := some e }
  | none =>
    let a := setProvisionedConcurrency env v.m
    { m := a.m, tr := v.tr ++ a.tr, err := a.err }

/-! ## Derived version sets used to describe the cleanup loops -/

/-- The versions a record list yields through `_extractVersionFromArn`, in
order, duplicates kept. -/
def extractedVersions (snapshot : List PCRecord) : List String :=
  snapshot.filterMap (fun r => _extractVersionFromArn r.FunctionArn)

/-- The versions `_managePreviousConcurrency` issues deletes for: every
extracted version other than the target. -/
def deletedVersions (target : String) (snapshot : List PCRecord) : List String :=
  (extractedVersions snapshot).filter (fun v => v ≠ target)

/-! ## Drift-free hypotheses for whole-run theorems -/

/-- Whether the apply-phase provider calls for one function all succeed:
its version resolves, the put for the resolved version is accepted, the
status poll reports `READY`, and the identifier the provider will report
for the new record round-trips through `_extractVersionFromArn`. -/
def applyOkForB (env : Env) (f : FunctionWithConfig) : Bool :=
  match resolveVersion env (_getFunctionName env f.name) f.config.version with
  | .error _ => false
  | .ok v =>
    decide (_extractVersionFromArn (mkArn (_getFunctionName env f.name) v) = some v) &&
    decide (env.putOk (_getFunctionName env f.name) v = none) &&
    (match env.statusResult (_getFunctionName env f.name) v with
     | .ok st => st = "READY"
     | .error _ => false)

/-- Propositional form of `applyOkForB`. -/
abbrev applyOkFor (env : Env) (f : FunctionWithConfig) : Prop := applyOkForB env f = true

/-- No external drift and a successful run, seen from one declared
function: its enumeration call succeeds, its existing records carry
well-formed identifiers agreeing with the provider's qualifier key, the
deletes for those versions succeed, and (unless the function is excluded
by the warm-keeper name convention) the apply-phase calls succeed. -/
abbrev NoDriftAt (env : Env) (m : RecMap) (f : FunctionWithConfig) : Prop :=
  env.listRecordsOk (_getFunctionName env f.name) = none ∧
  (∀ r ∈ m (_getFunctionName env f.name),
    _extractVersionFromArn r.FunctionArn = some r.version) ∧
  (∀ r ∈ m (_getFunctionName env f.name),
    env.deleteOk (_getFunctionName env f.name) r.version = none) ∧
  (jsIncludes f.name "warmUpPlugin" = false → applyOkFor env f)

/-! ## Concrete environments for instantiating the theorems -/

/-- The empty provider store. -/
def mEmpty : RecMap := fun _ => []

/-- A drift-free environment: one function `f` targeting the latest
version with capacity 5 and reserved ceiling 100. -/
def envA : Env :=
  { service := "svc", stage := "st", maxPercent := none
    functions := [("f",
      { concurrency := some { version := some "latest", provisioned := some 5 }
        reservedConcurrency := some 100 })]
    listVersions := fun _ => .ok ["$LATEST", "1", "2", "10"]
    listRecordsOk := fun _ => none
    deleteOk := fun _ _ => none
    putOk := fun _ _ => none
    statusResult := fun _ _ => .ok "READY" }

/-- A store in which `svc-st-f` holds capacity on stale version `2`. -/
def m0 : RecMap := fun g =>
  if g = "svc-st-f" then
    [{ version := "2", FunctionArn := mkArn "svc-st-f" "2", count := 3 }]
  else []

/-- An environment declaring one warm-keeper function (its name contains
`warmUpPlugin`) with capacity 5 targeting version `1`. -/
def envW : Env :=
  { service := "svc", stage := "st", maxPercent := none
    functions := [("wwarmUpPlugin",
      { concurrency := some { version := some "1", provisioned := some 5 }
        reservedConcurrency := none })]
    listVersions := fun _ => .ok ["$LATEST", "1", "2"]
    listRecordsOk := fun _ => none
    deleteOk := fun _ _ => none
    putOk := fun _ _ => none
    statusResult := fun _ _ => .ok "READY" }

/-- A store in which the warm-keeper function holds capacity on version
`2` (a version differing from its declared target `1`). -/
def mW : RecMap := fun g =>
  if g = "svc-st-wwarmUpPlugin" then
    [{ version := "2", FunctionArn := mkArn "svc-st-wwarmUpPlugin" "2", count := 7 }]
  else []

/-- An environment whose single function requests capacity 81 against a
reserved ceiling of 100 under the default margin, so batch validation
fails. -/
def envV : Env :=
  { service := "svc", stage := "st", maxPercent := none
    functions := [("f",
      { concurrency := some { version := some "1", provisioned := some 81 }
        reservedConcurrency := some 100 })]
    listVersions := fun _ => .ok ["$LATEST", "1"]
    listRecordsOk := fun _ => none
    deleteOk := fun _ _ => none
    putOk := fun _ _ => none
    statusResult := fun _ _ => .ok "READY" }

/-- An environment with margin 82 whose single function has a reserved
ceiling of 150 and requests capacity 123, the exact value of
`floor(150 * 82 / 100)`. -/
def envC2 : Env :=
  { service := "svc", stage := "st", maxPercent := some 82
    functions := [("f",
      { concurrency := some { version := some "1", provisioned := some 123 }
        reservedConcurrency := some 150 })]
    listVersions := fun _ => .ok ["$LATEST", "1"]
    listRecordsOk := fun _ => none
    deleteOk := fun _ _ => none
    putOk := fun _ _ => none
    statusResult := fun _ _ => .ok "READY" }

/-- An environment with one healthy function and one function whose
version listing fails, to exercise per-function error isolation in the
batch cleanup loop. -/
def envB : Env :=
  { service := "svc", stage := "st", maxPercent := none
    functions :=
      [("bad",
        { concurrency := some { version := some "latest", provisioned := some 2 }
          reservedConcurrency := none }),
       ("good",
        { concurrency := some { version := some "latest", provisioned := some 2 }
          reservedConcurrency := none })]
    listVersions := fun fn =>
      if fn = "svc-st-bad" then .error "listVersionsByFunction failed" else .ok ["$LATEST", "3"]
    listRecordsOk := fun _ => none
    deleteOk := fun _ _ => none
    putOk := fun _ _ => none
    statusResult := fun _ _ => .ok "READY" }

/-- A store in which both functions of `envB` hold capacity on stale
version `1`. -/
def mB : RecMap := fun g =>
  if g = "svc-st-good" ∨ g = "svc-st-bad" then
    [{ version := "1", FunctionArn := mkArn g "1", count := 2 }]
  else []

theorem mem_insertVersionDesc {x v : String} {l : List String} :
    x ∈ insertVersionDesc v l ↔ x = v ∨ x ∈ l := by
  induction l with
  | nil => simp [insertVersionDesc]
  | cons w rest ih =>
    simp only [insertVersionDesc]
    split
    · simp [List.mem_cons]
    · simp only [List.mem_cons, ih]
      tauto

theorem mem_sortVersionsDesc {x : String} {l : List String} :
    x ∈ sortVersionsDesc l ↔ x ∈ l := by
  induction l with
  | nil => simp [sortVersionsDesc]
  | cons v rest ih => simp [sortVersionsDesc, mem_insertVersionDesc, ih]

theorem pairwise_insertVersionDesc {v : String} {l : List String}
    (h : l.Pairwise (fun a b => versionKey b ≤ versionKey a)) :
    (insertVersionDesc v l).Pairwise (fun a b => versionKey b ≤ versionKey a) := by
  induction l with
  | nil => simp [insertVersionDesc]
  | cons w rest ih =>
    rw [List.pairwise_cons] at h
    obtain ⟨hw, hrest⟩ := h
    simp only [insertVersionDesc]
    split
    · rename_i hgt
      refine List.pairwise_cons.2 ⟨?_, List.pairwise_cons.2 ⟨hw, hrest⟩⟩
      intro x hx
      rcases List.mem_cons.1 hx with rfl | hx
      · omega
      · have := hw x hx
        omega
    · rename_i hle
      refine List.pairwise_cons.2 ⟨?_, ih hrest⟩
      intro x hx
      rcases mem_insertVersionDesc.1 hx with rfl | hx
      · omega
      · exact hw x hx

theorem sortVersionsDesc_pairwise (l : List String) :
    (sortVersionsDesc l).Pairwise (fun a b => versionKey b ≤ versionKey a) := by
  induction l with
  | nil => simp [sortVersionsDesc]
  | cons v rest ih =>
    simp only [sortVersionsDesc]
    exact pairwise_insertVersionDesc ih

theorem sortVersionsDesc_head_max {l : List String} {v : String} {rest : List String}
    (h : sortVersionsDesc l = v :: rest) :
    ∀ x ∈ l, versionKey x ≤ versionKey v := by
  intro x hx
  have hx' : x ∈ v :: rest := h ▸ mem_sortVersionsDesc.2 hx
  rcases List.mem_cons.1 hx' with rfl | hx'
  · exact le_refl _
  · have hp := sortVersionsDesc_pairwise l
    rw [h, List.pairwise_cons] at hp
    exact hp.1 x hx'

/-! ## Facts about `_getLatestVersion` and `resolveVersion` -/

theorem getLatestVersion_ok {env : Env} {functionName V : String} {vs : List String}
    (hvs : env.listVersions functionName = .ok vs)
    (hV : _getLatestVersion env functionName = .ok V) :
    V ∈ vs ∧ V ≠ "$LATEST" ∧ ∀ w ∈ vs, w ≠ "$LATEST" → versionKey w ≤ versionKey V := by
  simp only [_getLatestVersion, hvs] at hV
  split at hV
  · simp at hV
  · split at hV
    · simp at hV
    · rename_i hsort
      simp only [Except.ok.injEq] at hV
      subst hV
      rename_i v rest
      have hmem : v ∈ vs.filter (fun v => v ≠ "$LATEST") := by
        have hv : v ∈ v :: rest := List.mem_cons_self _ _
        rw [← hsort] at hv
        exact mem_sortVersionsDesc.1 hv
      have hmem' := List.mem_filter.1 hmem
      refine ⟨hmem'.1, by simpa using hmem'.2, ?_⟩
      intro w hw hwne
      exact sortVersionsDesc_head_max hsort w (List.mem_filter.2 ⟨hw, by simpa using hwne⟩)

theorem getLatestVersion_noVersions {env : Env} {functionName : String} {vs : List String}
    (hvs : env.listVersions functionName = .ok vs)
    (hfil : vs.filter (fun v => v ≠ "$LATEST") = []) :
    ∃ e, _getLatestVersion env functionName = .error e := by
  simp only [_getLatestVersion, hvs, hfil]
  cases hemp : vs.isEmpty <;> simp [sortVersionsDesc]

theorem resolveVersion_verbatim (env : Env) (functionName s : String)
    (hs : s ≠ "") (hlatest : s ≠ "latest") :
    resolveVersion env functionName (some s) = .ok s := by
  simp [resolveVersion, jsFalsyStr, hs, hlatest]

theorem resolveVersion_none (env : Env) (functionName : String) :
    resolveVersion env functionName none = _getLatestVersion env functionName := by
  simp [resolveVersion, jsFalsyStr]

theorem resolveVersion_latest (env : Env) (functionName : String) :
    resolveVersion env functionName (some "latest") = _getLatestVersion env functionName := by
  simp [resolveVersion, jsFalsyStr]

/-! ## Closed forms of the reconciliation cleanup loops -/

theorem extractedVersions_eq_map {recs : List PCRecord}
    (hWF : ∀ r ∈ recs, _extractVersionFromArn r.FunctionArn = some r.version) :
    extractedVersions recs = recs.map (fun r => r.version) := by
  induction recs with
  | nil => rfl
  | cons r rest ih =>
    simp only [extractedVersions, List.filterMap_cons, hWF r (List.mem_cons_self _ _),
      List.map_cons]
    congr 1
    exact ih (fun x hx => hWF x (List.mem_cons_of_mem _ hx))

theorem managePreviousLoop_eq (env : Env) (fn target : String) (snapshot : List PCRecord)
    (hdel : ∀ v ∈ deletedVersions target snapshot, env.deleteOk fn v = none) :
    ∀ recs, managePreviousLoop env fn target snapshot recs =
      (recs.filter (fun r => r.version ∉ deletedVersions target snapshot),
       (deletedVersions target snapshot).map (fun v => Op.deleteOp fn v), none) := by
  induction snapshot with
  | nil =>
    intro recs
    simp [managePreviousLoop, deletedVersions, extractedVersions]
  | cons r rest ih =>
    intro recs
    cases hx : _extractVersionFromArn r.FunctionArn with
    | none =>
      have hdv : deletedVersions target (r :: rest) = deletedVersions target rest := by
        simp [deletedVersions, extractedVersions, List.filterMap_cons, hx]
      rw [hdv] at hdel
      simp only [managePreviousLoop, hx, hdv]
      exact ih hdel recs
    | some v =>
      by_cases hvt : v = target
      · subst hvt
        have hdv : deletedVersions v (r :: rest) = deletedVersions v rest := by
          simp [deletedVersions, extractedVersions, List.filterMap_cons, hx]
        rw [hdv] at hdel
        simp only [managePreviousLoop, hx, if_pos rfl, hdv]
        exact ih hdel recs
      · have hdv : deletedVersions target (r :: rest) = v :: deletedVersions target rest := by
          simp [deletedVersions, extractedVersions, List.filterMap_cons, hx, hvt]
        have hdelv : env.deleteOk fn v = none := by
          apply hdel
          rw [hdv]
          exact List.mem_cons_self _ _
        have hdelrest : ∀ w ∈ deletedVersions target rest, env.deleteOk fn w = none := by
          intro w hw
          apply hdel
          rw [hdv]
          exact List.mem_cons_of_mem _ hw
        simp only [managePreviousLoop, hx, if_neg hvt, _deleteProvisionedConcurrency, hdelv]
        rw [ih hdelrest (recs.filter (fun x => x.version ≠ v))]
        rw [hdv]
        refine Prod.ext ?_ (Prod.ext ?_ rfl)
        · simp only [List.filter_filter]
          apply List.filter_congr
          intro a _
          by_cases h1 : a.version = v <;> by_cases h2 : a.version ∈ deletedVersions target rest <;>
            simp [h1, h2, List.mem_cons]
        · simp

theorem manageEmptyLoop_eq (env : Env) (fn : String) (snapshot : List PCRecord)
    (hdel : ∀ v ∈ extractedVersions snapshot, env.deleteOk fn v = none) :
    ∀ recs, manageEmptyLoop env fn snapshot recs =
      (recs.filter (fun r => r.version ∉ extractedVersions snapshot),
       (extractedVersions snapshot).map (fun v => Op.deleteOp fn v), none) := by
  induction snapshot with
  | nil =>
    intro recs
    simp [manageEmptyLoop, extractedVersions]
  | cons r rest ih =>
    intro recs
    cases hx : _extractVersionFromArn r.FunctionArn with
    | none =>
      have hdv : extractedVersions (r :: rest) = extractedVersions rest := by
        simp [extractedVersions, List.filterMap_cons, hx]
      rw [hdv] at hdel
      simp only [manageEmptyLoop, hx, hdv]
      exact ih hdel recs
    | some v =>
      have hdv : extractedVersions (r :: rest) = v :: extractedVersions rest := by
        simp [extractedVersions, List.filterMap_cons, hx]
      have hdelv : env.deleteOk fn v = none := by
        apply hdel
        rw [hdv]
        exact List.mem_cons_self _ _
      have hdelrest : ∀ w ∈ extractedVersions rest, env.deleteOk fn w = none := by
        intro w hw
        apply hdel
        rw [hdv]
        exact List.mem_cons_of_mem _ hw
      simp only [manageEmptyLoop, hx, _deleteProvisionedConcurrency, hdelv]
      rw [ih hdelrest (recs.filter (fun x => x.version ≠ v))]
      rw [hdv]
      refine Prod.ext ?_ (Prod.ext ?_ rfl)
      · simp only [List.filter_filter]
        apply List.filter_congr
        intro a _
        by_cases h1 : a.version = v <;> by_cases h2 : a.version ∈ extractedVersions rest <;>
          simp [h1, h2, List.mem_cons]
      · simp

theorem managePrevious_closed (env : Env) (fn target : String) (recs : List PCRecord)
    (hlist : env.listRecordsOk fn = none)
    (hdel : ∀ v ∈ deletedVersions target recs, env.deleteOk fn v = none) :
    _managePreviousConcurrency env fn target recs =
      (recs.filter (fun r => r.version ∉ deletedVersions target recs),
       (deletedVersions target recs).map (fun v => Op.deleteOp fn v), none) := by
  simp only [_managePreviousConcurrency, _getVersionsWithProvisionedConcurrency, hlist]
  cases hrecs : recs with
  | nil => simp [deletedVersions, extractedVersions]
  | cons a l =>
    subst hrecs
    simp only [List.isEmpty_cons, Bool.false_eq_true, if_false]
    exact managePreviousLoop_eq env fn target (a :: l) hdel (a :: l)

theorem manageEmpty_closed (env : Env) (fn : String) (recs : List PCRecord)
    (hlist : env.listRecordsOk fn = none)
    (hdel : ∀ v ∈ extractedVersions recs, env.deleteOk fn v = none) :
    _manageEmptyConfiguration env fn recs =
      (recs.filter (fun r => r.version ∉ extractedVersions recs),
       (extractedVersions recs).map (fun v => Op.deleteOp fn v), none) := by
  simp only [_manageEmptyConfiguration, _getVersionsWithProvisionedConcurrency, hlist]
  exact manageEmptyLoop_eq env fn recs hdel recs

theorem filter_not_deleted_eq (target : String) (recs : List PCRecord)
    (hWF : ∀ r ∈ recs, _extractVersionFromArn r.FunctionArn = some r.version) :
    recs.filter (fun r => r.version ∉ deletedVersions target recs) =
      recs.filter (fun r => r.version = target) := by
  apply List.filter_congr
  intro a ha
  have hmm : a.version ∈ recs.map (fun r => r.version) := List.mem_map_of_mem _ ha
  rw [deletedVersions, extractedVersions_eq_map hWF]
  by_cases h : a.version = target
  · simp [h, List.mem_filter]
  · simp [h, List.mem_filter, hmm]

theorem filter_not_extracted_eq_nil (recs : List PCRecord)
    (hWF : ∀ r ∈ recs, _extractVersionFromArn r.FunctionArn = some r.version) :
    recs.filter (fun r => r.version ∉ extractedVersions recs) = [] := by
  rw [List.filter_eq_nil_iff]
  intro a ha
  rw [extractedVersions_eq_map hWF]
  simp only [decide_not, Bool.not_eq_true', decide_eq_false_iff_not, not_not]
  exact List.mem_map_of_mem _ ha

/-! ## Behavior of the per-function steps -/

theorem deleteConcurrency_warm (env : Env) (f : FunctionWithConfig) (recs : List PCRecord)
    (h : jsIncludes f.name "warmUpPlugin" = true) :
    _deleteConcurrency env f recs = (recs, []) := by
  simp [_deleteConcurrency, h]

theorem deleteConcurrency_resolveError (env : Env) (f : FunctionWithConfig)
    (recs : List PCRecord) (e : String)
    (hwarm : jsIncludes f.name "warmUpPlugin" = false)
    (hres : resolveVersion env (_getFunctionName env f.name) f.config.version = .error e) :
    _deleteConcurrency env f recs = (recs, []) := by
  simp [_deleteConcurrency, hwarm, hres]

theorem deleteConcurrency_positive (env : Env) (f : FunctionWithConfig)
    (recs : List PCRecord) (V : String) (c : Int)
    (hwarm : jsIncludes f.name "warmUpPlugin" = false)
    (hres : resolveVersion env (_getFunctionName env f.name) f.config.version = .ok V)
    (hc : f.config.provisioned = some c) (hc0 : c ≠ 0)
    (hlist : env.listRecordsOk (_getFunctionName env f.name) = none)
    (hdel : ∀ v ∈ deletedVersions V recs,
      env.deleteOk (_getFunctionName env f.name) v = none) :
    _deleteConcurrency env f recs =
      (recs.filter (fun r => r.version ∉ deletedVersions V recs),
       (deletedVersions V recs).map (fun v => Op.deleteOp (_getFunctionName env f.name) v)) := by
  simp only [_deleteConcurrency, hwarm, Bool.false_eq_true, if_false, hres, hc, hc0, if_neg hc0,
    managePrevious_closed env (_getFunctionName env f.name) V recs hlist hdel]

theorem deleteConcurrency_empty (env : Env) (f : FunctionWithConfig)
    (recs : List PCRecord) (V : String)
    (hwarm : jsIncludes f.name "warmUpPlugin" = false)
    (hres : resolveVersion env (_getFunctionName env f.name) f.config.version = .ok V)
    (hc : f.config.provisioned = none)
    (hlist : env.listRecordsOk (_getFunctionName env f.name) = none)
    (hdel : ∀ v ∈ extractedVersions recs,
      env.deleteOk (_getFunctionName env f.name) v = none) :
    _deleteConcurrency env f recs =
      (recs.filter (fun r => r.version ∉ extractedVersions recs),
       (extractedVersions recs).map (fun v => Op.deleteOp (_getFunctionName env f.name) v)) := by
  simp only [_deleteConcurrency, hwarm, Bool.false_eq_true, if_false, hres, hc,
    manageEmpty_closed env (_getFunctionName env f.name) recs hlist hdel]

theorem waitReady_const (functionName version : String) :
    _waitForProvisionedConcurrencyReady functionName version
      (fun _ => Except.ok "READY") = .ready := rfl

theorem processFunction_positive (env : Env) (f : FunctionWithConfig)
    (recs : List PCRecord) (V : String) (c : Int)
    (hres : resolveVersion env (_getFunctionName env f.name) f.config.version = .ok V)
    (hc : f.config.provisioned = some c) (hcpos : 0 < c)
    (hput : env.putOk (_getFunctionName env f.name) V = none)
    (hstatus : env.statusResult (_getFunctionName env f.name) V = Except.ok "READY") :
    _processFunction env f recs =
      (recs.filter (fun r => r.version ≠ V) ++
        [{ version := V, FunctionArn := mkArn (_getFunctionName env f.name) V, count := c }],
       [Op.putOp (_getFunctionName env f.name) V c], none) := by
  simp only [_processFunction, hres, hc, hcpos, if_pos hcpos, _setProvisionedConcurrency, hput,
    hstatus, _waitForProvisionedConcurrencyReady]
  rfl

theorem processFunction_nonPositive (env : Env) (f : FunctionWithConfig)
    (recs : List PCRecord) (V : String)
    (hres : resolveVersion env (_getFunctionName env f.name) f.config.version = .ok V)
    (hc : ∀ c, f.config.provisioned = some c → ¬ 0 < c) :
    _processFunction env f recs = (recs, [], none) := by
  simp only [_processFunction, hres]
  cases hp : f.config.provisioned with
  | none => rfl
  | some c =>
    have := hc c hp
    simp [this]

/-! ## Which requests each step can issue -/

theorem managePreviousLoop_ops (env : Env) (fn target : String) :
    ∀ snapshot recs op, op ∈ (managePreviousLoop env fn target snapshot recs).2.1 →
      ∃ v, op = Op.deleteOp fn v := by
  intro snapshot
  induction snapshot with
  | nil => intro recs op h; simp [managePreviousLoop] at h
  | cons r rest ih =>
    intro recs op h
    simp only [managePreviousLoop] at h
    cases hx : _extractVersionFromArn r.FunctionArn with
    | none =>
      rw [hx] at h
      exact ih recs op h
    | some v =>
      rw [hx] at h
      dsimp only at h
      by_cases hvt : v = target
      · rw [if_pos hvt] at h
        exact ih recs op h
      · rw [if_neg hvt] at h
        cases hd : env.deleteOk fn v with
        | some e =>
          simp only [_deleteProvisionedConcurrency, hd] at h
          simp only [List.mem_singleton] at h
          exact ⟨v, h⟩
        | none =>
          simp only [_deleteProvisionedConcurrency, hd] at h
          rw [List.mem_append] at h
          rcases h with h | h
          · simp only [List.mem_singleton] at h
            exact ⟨v, h⟩
          · exact ih _ op h

theorem manageEmptyLoop_ops (env : Env) (fn : String) :
    ∀ snapshot recs op, op ∈ (manageEmptyLoop env fn snapshot recs).2.1 →
      ∃ v, op = Op.deleteOp fn v := by
  intro snapshot
  induction snapshot with
  | nil => intro recs op h; simp [manageEmptyLoop] at h
  | cons r rest ih =>
    intro recs op h
    simp only [manageEmptyLoop] at h
    cases hx : _extractVersionFromArn r.FunctionArn with
    | none =>
      rw [hx] at h
      exact ih recs op h
    | some v =>
      rw [hx] at h
      dsimp only at h
      cases hd : env.deleteOk fn v with
      | some e =>
        simp only [_deleteProvisionedConcurrency, hd] at h
        simp only [List.mem_singleton] at h
        exact ⟨v, h⟩
      | none =>
        simp only [_deleteProvisionedConcurrency, hd] at h
        rw [List.mem_append] at h
        rcases h with h | h
        · simp only [List.mem_singleton] at h
          exact ⟨v, h⟩
        · exact ih _ op h

theorem deleteConcurrency_ops (env : Env) (f : FunctionWithConfig) (recs : List PCRecord)
    (op : Op) (h : op ∈ (_deleteConcurrency env f recs).2) :
    ∃ v, op = Op.deleteOp (_getFunctionName env f.name) v := by
  by_cases hwarm : jsIncludes f.name "warmUpPlugin" = true
  · rw [deleteConcurrency_warm env f recs hwarm] at h
    simp at h
  · rw [Bool.not_eq_true] at hwarm
    simp only [_deleteConcurrency, hwarm, Bool.false_eq_true, if_false] at h
    cases hres : resolveVersion env (_getFunctionName env f.name) f.config.version with
    | error e => rw [hres] at h; simp at h
    | ok V =>
      rw [hres] at h
      cases hp : f.config.provisioned with
      | none =>
        rw [hp] at h
        exact manageEmptyLoop_ops env _ _ _ op
          (by simpa [_manageEmptyConfiguration] using h)
      | some c =>
        rw [hp] at h
        dsimp only at h
        by_cases hc0 : c = 0
        · rw [if_pos hc0] at h
          exact manageEmptyLoop_ops env _ _ _ op
            (by simpa [_manageEmptyConfiguration] using h)
        · rw [if_neg hc0] at h
          simp only [_managePreviousConcurrency] at h
          split at h
          · simp at h
          · exact managePreviousLoop_ops env _ _ _ _ op h

theorem processFunction_ops (env : Env) (f : FunctionWithConfig) (recs : List PCRecord)
    (op : Op) (h : op ∈ (_processFunction env f recs).2.1) :
    ∃ v c, op = Op.putOp (_getFunctionName env f.name) v c := by
  simp only [_processFunction] at h
  cases hres : resolveVersion env (_getFunctionName env f.name) f.config.version with
  | error e => rw [hres] at h; simp at h
  | ok V =>
    rw [hres] at h
    cases hp : f.config.provisioned with
    | none => rw [hp] at h; simp at h
    | some c =>
      rw [hp] at h
      dsimp only at h
      by_cases hc : 0 < c
      · rw [if_pos hc] at h
        simp only [_setProvisionedConcurrency] at h
        cases hput : env.putOk (_getFunctionName env f.name) V with
        | some e =>
          rw [hput] at h
          simp only [List.mem_singleton] at h
          exact ⟨V, c, h⟩
        | none =>
          rw [hput] at h
          dsimp only at h
          cases hw : _waitForProvisionedConcurrencyReady (_getFunctionName env f.name) V
              (fun _ => env.statusResult (_getFunctionName env f.name) V) with
          | ready =>
            rw [hw] at h
            dsimp only at h
            simp only [List.mem_singleton] at h
            exact ⟨V, c, h⟩
          | pollError e =>
            rw [hw] at h
            dsimp only at h
            simp only [List.mem_singleton] at h
            exact ⟨V, c, h⟩
          | timeout e =>
            rw [hw] at h
            dsimp only at h
            simp only [List.mem_singleton] at h
            exact ⟨V, c, h⟩
      · rw [if_neg hc] at h
        simp at h

/-! ## The phase loops: frame, per-key value, and trace shape -/

theorem flatMap_congr_left {α β : Type} {f g : α → List β} :
    ∀ {l : List α}, (∀ a ∈ l, f a = g a) → l.flatMap f = l.flatMap g := by
  intro l
  induction l with
  | nil => intro _; rfl
  | cons a rest ih =>
    intro h
    rw [List.flatMap_cons, List.flatMap_cons, h a (List.mem_cons_self _ _),
      ih (fun x hx => h x (List.mem_cons_of_mem _ hx))]

theorem validatePhaseLoop_m_frame (env : Env) :
    ∀ (fns : List FunctionWithConfig) (m : RecMap) (g : String),
      (∀ f ∈ fns, _getFunctionName env f.name ≠ g) →
      (validatePhaseLoop env fns m).1 g = m g := by
  intro fns
  induction fns with
  | nil => intro m g _; rfl
  | cons f rest ih =>
    intro m g hg
    simp only [validatePhaseLoop]
    rw [ih _ g (fun x hx => hg x (List.mem_cons_of_mem _ hx))]
    have hne := hg f (List.mem_cons_self _ _)
    simp [updateMap, Ne.symm hne]

theorem validatePhaseLoop_m_mem (env : Env) :
    ∀ (fns : List FunctionWithConfig) (m : RecMap) (f : FunctionWithConfig),
      f ∈ fns →
      (fns.map (fun g => _getFunctionName env g.name)).Nodup →
      (validatePhaseLoop env fns m).1 (_getFunctionName env f.name) =
        (_deleteConcurrency env f (m (_getFunctionName env f.name))).1 := by
  intro fns
  induction fns with
  | nil => intro m f hf _; simp at hf
  | cons h rest ih =>
    intro m f hf hnd
    rw [List.map_cons, List.nodup_cons] at hnd
    obtain ⟨hnotin, hndrest⟩ := hnd
    simp only [validatePhaseLoop]
    rcases List.mem_cons.1 hf with rfl | hf'
    · have hfr : ∀ g ∈ rest, _getFunctionName env g.name ≠ _getFunctionName env f.name := by
        intro g hg hcontra
        exact hnotin (hcontra ▸ List.mem_map_of_mem _ hg)
      rw [validatePhaseLoop_m_frame env rest _ _ hfr]
      simp [updateMap]
    · have hne : _getFunctionName env f.name ≠ _getFunctionName env h.name := by
        intro hcontra
        exact hnotin (hcontra ▸ List.mem_map_of_mem _ hf')
      rw [ih _ f hf' hndrest]
      simp [updateMap, hne]

theorem validatePhaseLoop_tr (env : Env) :
    ∀ (fns : List FunctionWithConfig) (m : RecMap),
      (fns.map (fun g => _getFunctionName env g.name)).Nodup →
      (validatePhaseLoop env fns m).2 =
        fns.flatMap (fun f => (_deleteConcurrency env f (m (_getFunctionName env f.name))).2) := by
  intro fns
  induction fns with
  | nil => intro m _; rfl
  | cons h rest ih =>
    intro m hnd
    rw [List.map_cons, List.nodup_cons] at hnd
    obtain ⟨hnotin, hndrest⟩ := hnd
    simp only [validatePhaseLoop, List.flatMap_cons]
    congr 1
    rw [ih _ hndrest]
    apply flatMap_congr_left
    intro g hg
    have hne : _getFunctionName env g.name ≠ _getFunctionName env h.name := by
      intro hcontra
      exact hnotin (hcontra ▸ List.mem_map_of_mem _ hg)
    simp [updateMap, hne]

theorem validatePhaseLoop_tr_mem (env : Env) :
    ∀ (fns : List FunctionWithConfig) (m : RecMap) (op : Op),
      op ∈ (validatePhaseLoop env fns m).2 →
      ∃ f ∈ fns, ∃ recs, op ∈ (_deleteConcurrency env f recs).2 := by
  intro fns
  induction fns with
  | nil => intro m op h; simp [validatePhaseLoop] at h
  | cons f rest ih =>
    intro m op h
    simp only [validatePhaseLoop] at h
    rw [List.mem_append] at h
    rcases h with h | h
    · exact ⟨f, List.mem_cons_self _ _, _, h⟩
    · obtain ⟨g, hg, recs, hop⟩ := ih _ op h
      exact ⟨g, List.mem_cons_of_mem _ hg, recs, hop⟩

theorem applyPhaseLoop_m_frame (env : Env) :
    ∀ (fns : List FunctionWithConfig) (m : RecMap) (g : String),
      (∀ f ∈ fns, _getFunctionName env f.name ≠ g) →
      (applyPhaseLoop env fns m).1 g = m g := by
  intro fns
  induction fns with
  | nil => intro m g _; rfl
  | cons f rest ih =>
    intro m g hg
    simp only [applyPhaseLoop]
    rw [ih _ g (fun x hx => hg x (List.mem_cons_of_mem _ hx))]
    have hne := hg f (List.mem_cons_self _ _)
    simp [updateMap, Ne.symm hne]

theorem applyPhaseLoop_m_mem (env : Env) :
    ∀ (fns : List FunctionWithConfig) (m : RecMap) (f : FunctionWithConfig),
      f ∈ fns →
      (fns.map (fun g => _getFunctionName env g.name)).Nodup →
      (applyPhaseLoop env fns m).1 (_getFunctionName env f.name) =
        (_processFunction env f (m (_getFunctionName env f.name))).1 := by
  intro fns
  induction fns with
  | nil => intro m f hf _; simp at hf
  | cons h rest ih =>
    intro m f hf hnd
    rw [List.map_cons, List.nodup_cons] at hnd
    obtain ⟨hnotin, hndrest⟩ := hnd
    simp only [applyPhaseLoop]
    rcases List.mem_cons.1 hf with rfl | hf'
    · have hfr : ∀ g ∈ rest, _getFunctionName env g.name ≠ _getFunctionName env f.name := by
        intro g hg hcontra
        exact hnotin (hcontra ▸ List.mem_map_of_mem _ hg)
      rw [applyPhaseLoop_m_frame env rest _ _ hfr]
      simp [updateMap]
    · have hne : _getFunctionName env f.name ≠ _getFunctionName env h.name := by
        intro hcontra
        exact hnotin (hcontra ▸ List.mem_map_of_mem _ hf')
      rw [ih _ f hf' hndrest]
      simp [updateMap, hne]

theorem applyPhaseLoop_tr_mem (env : Env) :
    ∀ (fns : List FunctionWithConfig) (m : RecMap) (op : Op),
      op ∈ (applyPhaseLoop env fns m).2.1 →
      ∃ f ∈ fns, ∃ recs, op ∈ (_processFunction env f recs).2.1 := by
  intro fns
  induction fns with
  | nil => intro m op h; simp [applyPhaseLoop] at h
  | cons f rest ih =>
    intro m op h
    simp only [applyPhaseLoop] at h
    rw [List.mem_append] at h
    rcases h with h | h
    · exact ⟨f, List.mem_cons_self _ _, _, h⟩
    · obtain ⟨g, hg, recs, hop⟩ := ih _ op h
      exact ⟨g, List.mem_cons_of_mem _ hg, recs, hop⟩

/-! ## Entry points under passing validation -/

theorem validateConcurrency_pass (env : Env) (m : RecMap)
    (hval : _validateAllFunctions env = []) :
    validateConcurrency env m =
      { m := (validatePhaseLoop env (_getConfiguredFunctions env) m).1
        tr := (validatePhaseLoop env (_getConfiguredFunctions env) m).2
        err := none } := by
  simp only [validateConcurrency, hval, List.isEmpty_nil, if_true]
  cases hfns : _getConfiguredFunctions env with
  | nil => simp [validatePhaseLoop]
  | cons a l => simp

theorem setProvisionedConcurrency_eq (env : Env) (m : RecMap) :
    setProvisionedConcurrency env m =
      { m := (applyPhaseLoop env ((_getConfiguredFunctions env).filter
          (fun f => ¬ jsIncludes f.name "warmUpPlugin")) m).1
        tr := (applyPhaseLoop env ((_getConfiguredFunctions env).filter
          (fun f => ¬ jsIncludes f.name "warmUpPlugin")) m).2.1
        err := (applyPhaseLoop env ((_getConfiguredFunctions env).filter
          (fun f => ¬ jsIncludes f.name "warmUpPlugin")) m).2.2 } := by
  simp only [setProvisionedConcurrency]
  cases hfns : _getConfiguredFunctions env with
  | nil => simp [applyPhaseLoop]
  | cons a l => simp

theorem fullRun_pass (env : Env) (m : RecMap)
    (hval : _validateAllFunctions env = []) :
    fullRun env m =
      { m := (applyPhaseLoop env ((_getConfiguredFunctions env).filter
          (fun f => ¬ jsIncludes f.name "warmUpPlugin"))
          (validatePhaseLoop env (_getConfiguredFunctions env) m).1).1
        tr := (validatePhaseLoop env (_getConfiguredFunctions env) m).2 ++
          (applyPhaseLoop env ((_getConfiguredFunctions env).filter
            (fun f => ¬ jsIncludes f.name "warmUpPlugin"))
            (validatePhaseLoop env (_getConfiguredFunctions env) m).1).2.1
        err := (applyPhaseLoop env ((_getConfiguredFunctions env).filter
          (fun f => ¬ jsIncludes f.name "warmUpPlugin"))
          (validatePhaseLoop env (_getConfiguredFunctions env) m).1).2.2 } := by
  simp only [fullRun, validateConcurrency_pass env m hval, setProvisionedConcurrency_eq]

theorem fullRun_fail (env : Env) (m : RecMap)
    (hval : _validateAllFunctions env ≠ []) :
    fullRun env m =
      { m := m, tr := [], err := some (aggregateMessage (_validateAllFunctions env)) } := by
  have hemp : (_validateAllFunctions env).isEmpty = false := by
    cases h : _validateAllFunctions env with
    | nil => exact absurd h hval
    | cons a l => rfl
  simp only [fullRun, validateConcurrency, hemp, Bool.false_eq_true, if_false]

/-! ## Small consequences of normalization -/

theorem jsOrNullInt_ne_some_zero (v : Option Int) : jsOrNullInt v ≠ some 0 := by
  cases v with
  | none => simp [jsOrNullInt]
  | some n =>
    simp only [jsOrNullInt]
    by_cases h : n = 0
    · simp [h]
    · simp [h]

theorem configured_provisioned_ne_zero (env : Env) (f : FunctionWithConfig)
    (hf : f ∈ _getConfiguredFunctions env) : f.config.provisioned ≠ some 0 := by
  simp only [_getConfiguredFunctions, List.mem_map] at hf
  obtain ⟨e, _, rfl⟩ := hf
  exact jsOrNullInt_ne_some_zero _

theorem flatMap_const_nil {α β : Type} :
    ∀ l : List α, l.flatMap (fun _ => ([] : List β)) = [] := by
  intro l
  induction l with
  | nil => rfl
  | cons a rest ih => rw [List.flatMap_cons, List.nil_append, ih]

theorem processFunction_noneCfg (env : Env) (f : FunctionWithConfig)
    (recs : List PCRecord) (V : String)
    (hres : resolveVersion env (_getFunctionName env f.name) f.config.version = .ok V)
    (hc : f.config.provisioned = none) :
    _processFunction env f recs = (recs, [], none) := by
  simp [_processFunction, hres, hc]

/-! ## Claim theorems -/

/-- Counterexample to C2: with ceiling 150 and margin 82 the exact
`floor(ceiling * margin / 100)` is 123, but the program computes the
bound as `Math.floor(150 * (82/100))` in IEEE doubles, which is 122, and
therefore rejects a desired capacity equal to the claim's maxAllowed —
the declared function is a configured target with a known ceiling, so
"a desiredCapacity equal to maxAllowed passes" is false of the code. -/
theorem claim_C2_counterexample :
    Int.fdiv (150 * 82) 100 = 123 ∧
    maxProvisionedFor 150 (_getProvisionedConcurrencyPercent envC2) = 122 ∧
    ({ name := "f"
       config := { reserved := some 150, provisioned := some 123, version := some "1" } } :
      FunctionWithConfig) ∈ _getConfiguredFunctions envC2 ∧
    _validateProvisionedConcurrency envC2
      { name := "f"
        config := { reserved := some 150, provisioned := some 123, version := some "1" } } ≠
      none := by
  decide

/-- C2 as amended: for every function target with a known ceiling,
validation computes the maximum as `Math.floor(ceiling * (margin/100))`
evaluated in IEEE double precision (`maxProvisionedFor`), with the margin
read from global configuration and defaulting to the double literal
`0.8`; this double-precision floor can fall one below the exact
`floor(ceiling * margin / 100)` (e.g. ceiling 150, margin 82).  A desired
capacity at most the computed maximum passes, a strictly greater one
fails with a message naming the function, the desired value, and the
computed maximum; with no known ceiling, validation always passes. -/
theorem claim_C2 (env : Env) (f : FunctionWithConfig) :
    (∀ r : Int, effectiveReserved env f = some r →
      (jsNum f.config.provisioned ≤ maxProvisionedFor r (_getProvisionedConcurrencyPercent env) →
        _validateProvisionedConcurrency env f = none) ∧
      (jsNum f.config.provisioned > maxProvisionedFor r (_getProvisionedConcurrencyPercent env) →
        _validateProvisionedConcurrency env f =
          some ("Function " ++ _getFunctionName env f.name ++ " has provisioned concurrency (" ++
            (match f.config.provisioned with
             | some c => toString c
             | none => "null") ++
            ") higher than " ++
            toString (mathRoundD (floatMulInt 100 (_getProvisionedConcurrencyPercent env))) ++
            "% of reserved concurrency (" ++ toString r ++
            "). Maximum recommended provisioned concurrency is " ++
            toString (maxProvisionedFor r (_getProvisionedConcurrencyPercent env)) ++
            ". Maximum available provisioned concurrency is " ++ toString (r - 1) ++ "."))) ∧
    (effectiveReserved env f = none → _validateProvisionedConcurrency env f = none) ∧
    (env.maxPercent = none → _getProvisionedConcurrencyPercent env = floatOfRat 8 10) := by
  refine ⟨?_, ?_, ?_⟩
  · intro r hr
    constructor
    · intro hle
      simp only [_validateProvisionedConcurrency, hr]
      rw [if_neg (not_lt.2 hle)]
    · intro hgt
      simp only [_validateProvisionedConcurrency, hr]
      rw [if_pos hgt]
  · intro h
    simp [_validateProvisionedConcurrency, h]
  · intro h
    simp [_getProvisionedConcurrencyPercent, h]

set_option maxRecDepth 8000 in
/-- Witness for C2: the spec example, ceiling 100 and default margin 80:
desired 80 passes, desired 81 fails with the full message. -/
theorem claim_C2_witness :
    _validateProvisionedConcurrency envV
      { name := "f", config := { reserved := some 100, provisioned := some 81, version := some "1" } } =
      some ("Function svc-st-f has provisioned concurrency (81) higher than 80% of " ++
        "reserved concurrency (100). Maximum recommended provisioned concurrency is 80. " ++
        "Maximum available provisioned concurrency is 99.") ∧
    _validateProvisionedConcurrency envV
      { name := "f", config := { reserved := some 100, provisioned := some 80, version := some "1" } } =
      none := by
  constructor
  · have h := ((claim_C2 envV
      { name := "f", config := { reserved := some 100, provisioned := some 81, version := some "1" } }).1
      100 (by decide)).2 (by decide)
    exact h.trans (by decide)
  · exact ((claim_C2 envV
      { name := "f", config := { reserved := some 100, provisioned := some 80, version := some "1" } }).1
      100 (by decide)).1 (by decide)

/-- C3: if at least one function fails capacity validation, the batch
validate entry point raises a single aggregate error carrying every
failing function's message, with no provider mutation issued and the
provider state unchanged; if every function passes, no such error is
raised. -/
theorem claim_C3 (env : Env) (m : RecMap) :
    (_validateAllFunctions env ≠ [] →
      (validateConcurrency env m).err = some (aggregateMessage (_validateAllFunctions env)) ∧
      (validateConcurrency env m).tr = [] ∧
      (∀ g, (validateConcurrency env m).m g = m g) ∧
      (∀ f ∈ _getConfiguredFunctions env, ∀ e,
        _validateProvisionedConcurrency env f = some e → e ∈ _validateAllFunctions env)) ∧
    (_validateAllFunctions env = [] → (validateConcurrency env m).err = none) := by
  constructor
  · intro hne
    have hemp : (_validateAllFunctions env).isEmpty = false := by
      cases h : _validateAllFunctions env with
      | nil => exact absurd h hne
      | cons a l => rfl
    refine ⟨?_, ?_, fun g => ?_, fun f hf e he => ?_⟩
    · simp only [validateConcurrency, hemp, Bool.false_eq_true, if_false]
    · simp only [validateConcurrency, hemp, Bool.false_eq_true, if_false]
    · simp only [validateConcurrency, hemp, Bool.false_eq_true, if_false]
    · exact List.mem_filterMap.2 ⟨f, hf, he⟩
  · intro hval
    rw [validateConcurrency_pass env m hval]

/-- Witness for C3: `envV` fails validation, so the entry point raises the
aggregate error with an empty trace; the drift-free `envA` passes and no
aggregate error is raised. -/
theorem claim_C3_witness :
    (validateConcurrency envV mEmpty).err = some (aggregateMessage (_validateAllFunctions envV)) ∧
    (validateConcurrency envV mEmpty).tr = [] ∧
    (validateConcurrency envA mEmpty).err = none := by
  refine ⟨((claim_C3 envV mEmpty).1 (by decide)).1,
    ((claim_C3 envV mEmpty).1 (by decide)).2.1,
    (claim_C3 envA mEmpty).2 (by decide)⟩

/-- C4: version resolution is triggered exactly when the declared
reference is null/absent or the literal string `latest` (any other string
is used verbatim, independent of the provider); resolution filters out
the mutable head pseudo-version (spelled `$LATEST` by this provider),
fails with `NoVersionFound` when no concrete version remains, and
otherwise returns the version with the numerically greatest identifier
(numeric, not lexicographic), e.g. `10` from `[$LATEST, 1, 2, 10]`. -/
theorem claim_C4 :
    (∀ (env : Env) (functionName s : String), s ≠ "" → s ≠ "latest" →
      resolveVersion env functionName (some s) = .ok s) ∧
    (∀ (env : Env) (functionName : String),
      resolveVersion env functionName none = _getLatestVersion env functionName ∧
      resolveVersion env functionName (some "latest") = _getLatestVersion env functionName) ∧
    (∀ (env : Env) (functionName : String) (vs : List String),
      env.listVersions functionName = .ok vs →
      (vs.filter (fun v => v ≠ "$LATEST") = [] →
        ∃ e, _getLatestVersion env functionName = .error e) ∧
      (∀ V, _getLatestVersion env functionName = .ok V →
        V ∈ vs ∧ V ≠ "$LATEST" ∧ ∀ w ∈ vs, w ≠ "$LATEST" → versionKey w ≤ versionKey V)) ∧
    _getLatestVersion envA "f" = .ok "10" := by
  refine ⟨resolveVersion_verbatim,
    fun env fn => ⟨resolveVersion_none env fn, resolveVersion_latest env fn⟩, ?_, rfl⟩
  intro env fn vs hvs
  exact ⟨fun hfil => getLatestVersion_noVersions hvs hfil,
    fun V hV => getLatestVersion_ok hvs hV⟩

/-- Witness for C4: an explicit numeric reference is used verbatim, and
in the spec's example list the resolved version `10` numerically
dominates `2` (lexicographically it would not). -/
theorem claim_C4_witness :
    resolveVersion envA "svc-st-f" (some "7") = .ok "7" ∧
    versionKey "2" ≤ versionKey "10" := by
  constructor
  · exact claim_C4.1 envA "svc-st-f" "7" (by decide) (by decide)
  · exact (((claim_C4.2.2.1 envA "f" ["$LATEST", "1", "2", "10"] rfl).2 "10"
      claim_C4.2.2.2).2.2) "2" (by decide) (by decide)

theorem waitLoop_ready (functionName version : String) (poll : Nat → Except String String) :
    ∀ (fuel start k : Nat), k < fuel →
      (∀ i, i < k → ∃ s, poll (start + i) = .ok s ∧ s ≠ "READY") →
      poll (start + k) = .ok "READY" →
      waitLoop functionName version poll start fuel = .ready := by
  intro fuel
  induction fuel with
  | zero => intro start k hk _ _; omega
  | succ n ih =>
    intro start k hk hprev hready
    cases k with
    | zero =>
      rw [Nat.add_zero] at hready
      simp only [waitLoop, hready]
      rfl
    | succ k' =>
      obtain ⟨s, hs, hsne⟩ := hprev 0 (Nat.succ_pos _)
      rw [Nat.add_zero] at hs
      simp only [waitLoop, hs]
      rw [if_neg hsne]
      apply ih (start + 1) k' (by omega)
      · intro i hi
        have he : start + 1 + i = start + (i + 1) := by omega
        rw [he]
        exact hprev (i + 1) (by omega)
      · have he : start + 1 + k' = start + (k' + 1) := by omega
        rw [he]
        exact hready

theorem waitLoop_error (functionName version : String) (poll : Nat → Except String String)
    (e : String) :
    ∀ (fuel start k : Nat), k < fuel →
      (∀ i, i < k → ∃ s, poll (start + i) = .ok s ∧ s ≠ "READY") →
      poll (start + k) = .error e →
      waitLoop functionName version poll start fuel = .pollError e := by
  intro fuel
  induction fuel with
  | zero => intro start k hk _ _; omega
  | succ n ih =>
    intro start k hk hprev herr
    cases k with
    | zero =>
      rw [Nat.add_zero] at herr
      simp only [waitLoop, herr]
    | succ k' =>
      obtain ⟨s, hs, hsne⟩ := hprev 0 (Nat.succ_pos _)
      rw [Nat.add_zero] at hs
      simp only [waitLoop, hs]
      rw [if_neg hsne]
      apply ih (start + 1) k' (by omega)
      · intro i hi
        have he : start + 1 + i = start + (i + 1) := by omega
        rw [he]
        exact hprev (i + 1) (by omega)
      · have he : start + 1 + k' = start + (k' + 1) := by omega
        rw [he]
        exact herr

theorem waitLoop_timeout (functionName version : String) (poll : Nat → Except String String) :
    ∀ (fuel start : Nat),
      (∀ i, i < fuel → ∃ s, poll (start + i) = .ok s ∧ s ≠ "READY") →
      waitLoop functionName version poll start fuel =
        .timeout (timeoutMessage functionName version) := by
  intro fuel
  induction fuel with
  | zero => intro start _; rfl
  | succ n ih =>
    intro start hprev
    obtain ⟨s, hs, hsne⟩ := hprev 0 (Nat.succ_pos _)
    rw [Nat.add_zero] at hs
    simp only [waitLoop, hs]
    rw [if_neg hsne]
    apply ih
    intro i hi
    have he : start + 1 + i = start + (i + 1) := by omega
    rw [he]
    exact hprev (i + 1) (by omega)

/-- C7: the readiness wait polls on a fixed 10-second interval for at
most 30 attempts; it succeeds as soon as a poll reports `READY`, any poll
that raises aborts immediately with that error (no retry), and exhausting
all 30 attempts without `READY` raises the timeout error. -/
theorem claim_C7 :
    (maxAttempts = 30 ∧ delayMs = 10000) ∧
    (∀ (functionName version : String) (poll : Nat → Except String String) (k : Nat),
      k < maxAttempts →
      (∀ i, i < k → ∃ s, poll i = .ok s ∧ s ≠ "READY") →
      poll k = .ok "READY" →
      _waitForProvisionedConcurrencyReady functionName version poll = .ready) ∧
    (∀ (functionName version : String) (poll : Nat → Except String String) (k : Nat)
      (e : String),
      k < maxAttempts →
      (∀ i, i < k → ∃ s, poll i = .ok s ∧ s ≠ "READY") →
      poll k = .error e →
      _waitForProvisionedConcurrencyReady functionName version poll = .pollError e) ∧
    (∀ (functionName version : String) (poll : Nat → Except String String),
      (∀ i, i < maxAttempts → ∃ s, poll i = .ok s ∧ s ≠ "READY") →
      _waitForProvisionedConcurrencyReady functionName version poll =
        .timeout (timeoutMessage functionName version)) := by
  refine ⟨⟨rfl, rfl⟩, ?_, ?_, ?_⟩
  · intro fn ver poll k hk hprev hready
    exact waitLoop_ready fn ver poll maxAttempts 0 k hk
      (fun i hi => by simpa using hprev i hi) (by simpa using hready)
  · intro fn ver poll k e hk hprev herr
    exact waitLoop_error fn ver poll e maxAttempts 0 k hk
      (fun i hi => by simpa using hprev i hi) (by simpa using herr)
  · intro fn ver poll hprev
    exact waitLoop_timeout fn ver poll maxAttempts 0
      (fun i hi => by simpa using hprev i hi)

/-- Witness for C7: a poll that turns `READY` on the third attempt
succeeds, a constant non-`READY` poll times out, and a poll raising on
the second attempt aborts with that error. -/
theorem claim_C7_witness :
    _waitForProvisionedConcurrencyReady "fn" "1"
      (fun n => if n < 2 then .ok "IN_PROGRESS" else .ok "READY") = .ready ∧
    _waitForProvisionedConcurrencyReady "fn" "1"
      (fun _ => .ok "IN_PROGRESS") = .timeout (timeoutMessage "fn" "1") ∧
    _waitForProvisionedConcurrencyReady "fn" "1"
      (fun n => if n = 0 then .ok "IN_PROGRESS" else .error "boom") = .pollError "boom" := by
  refine ⟨?_, ?_, ?_⟩
  · exact claim_C7.2.1 "fn" "1" _ 2 (by decide)
      (fun i hi => ⟨"IN_PROGRESS", by simp [hi], by decide⟩) (by simp)
  · exact claim_C7.2.2.2 "fn" "1" _
      (fun i _ => ⟨"IN_PROGRESS", rfl, by decide⟩)
  · exact claim_C7.2.2.1 "fn" "1" _ 1 "boom" (by decide)
      (fun i hi => ⟨"IN_PROGRESS", by
        have h0 : i = 0 := by omega
        subst h0
        rfl, by decide⟩) (by simp)

/-- C10: in the batch validate/cleanup entry point, any error raised
while managing a single function's previous concurrency (version
resolution failure, enumeration failure, or a failed delete) is caught
inside that function's step, the loop continues with the remaining
functions (each function's final records depend only on its own step),
and the entry point completes normally once batch validation has
passed. -/
theorem claim_C10 (env : Env) (m : RecMap)
    (hval : _validateAllFunctions env = [])
    (hnodup : ((_getConfiguredFunctions env).map
      (fun g => _getFunctionName env g.name)).Nodup) :
    (validateConcurrency env m).err = none ∧
    ∀ f ∈ _getConfiguredFunctions env,
      (validateConcurrency env m).m (_getFunctionName env f.name) =
        (_deleteConcurrency env f (m (_getFunctionName env f.name))).1 := by
  rw [validateConcurrency_pass env m hval]
  exact ⟨rfl, fun f hf => validatePhaseLoop_m_mem env _ m f hf hnodup⟩

/-- Witness for C10: in `envB` the function `bad` fails version
resolution, yet the entry point completes without error; `bad`'s records
are left untouched by the caught failure while `good`'s stale record is
still cleaned up. -/
theorem claim_C10_witness :
    (validateConcurrency envB mB).err = none ∧
    (validateConcurrency envB mB).m "svc-st-bad" = mB "svc-st-bad" ∧
    (validateConcurrency envB mB).m "svc-st-good" = [] := by
  refine ⟨(claim_C10 envB mB (by decide) (by decide)).1, by decide, by decide⟩

/-- Counterexample to C6: the pre-flight batch entry point does mutate the
provider: with a stale record on version `2` and target `10`, invoking it
issues a delete-capacity request and changes the provider's records. -/
theorem claim_C6_counterexample :
    (validateConcurrency envA m0).tr = [Op.deleteOp "svc-st-f" "2"] ∧
    (validateConcurrency envA m0).m "svc-st-f" ≠ m0 "svc-st-f" := by
  decide

/-- C6 as amended: the pre-flight entry points run validation and then
reconciliation cleanup, so they may issue delete-capacity requests, but
for every input configuration they never issue a put-capacity request. -/
theorem claim_C6_amended (env : Env) (optFunction : Option String) (m : RecMap) :
    (∀ op ∈ (validateConcurrency env m).tr, op.isPut = false) ∧
    (∀ op ∈ (validateConcurrencyForFunction env optFunction m).tr, op.isPut = false) := by
  constructor
  · intro op hop
    cases hval : _validateAllFunctions env with
    | cons a l =>
      simp only [validateConcurrency, hval, List.isEmpty_cons, Bool.false_eq_true,
        if_false] at hop
      simp at hop
    | nil =>
      rw [validateConcurrency_pass env m hval] at hop
      dsimp only at hop
      obtain ⟨f, -, recs, hopf⟩ := validatePhaseLoop_tr_mem env _ m op hop
      obtain ⟨v, rfl⟩ := deleteConcurrency_ops env f recs op hopf
      rfl
  · intro op hop
    cases optFunction with
    | none => simp [validateConcurrencyForFunction] at hop
    | some fname =>
      simp only [validateConcurrencyForFunction] at hop
      cases hfind : (_getConfiguredFunctions env).find? (fun f => f.name = fname) with
      | none =>
        rw [hfind] at hop
        simp at hop
      | some f =>
        rw [hfind] at hop
        dsimp only at hop
        cases hvf : _validateProvisionedConcurrency env f with
        | some e =>
          rw [hvf] at hop
          simp at hop
        | none =>
          rw [hvf] at hop
          dsimp only at hop
          obtain ⟨v, rfl⟩ := deleteConcurrency_ops env f _ op hop
          rfl

/-- Witness for C6's amended theorem: the delete request the batch entry
point issues in the counterexample run is indeed not a put. -/
theorem claim_C6_amended_witness :
    Op.isPut (Op.deleteOp "svc-st-f" "2") = false :=
  (claim_C6_amended envA none m0).1 (Op.deleteOp "svc-st-f" "2") (by decide)

/-- Counterexample to C8: a warm-keeper function's existing record on a
stale version survives a full successful run untouched — the function is
not subject to reconciliation cleanup at all (no request is issued). -/
theorem claim_C8_counterexample :
    (fullRun envW mW).err = none ∧
    (fullRun envW mW).tr = [] ∧
    (fullRun envW mW).m "svc-st-wwarmUpPlugin" = mW "svc-st-wwarmUpPlugin" ∧
    mW "svc-st-wwarmUpPlugin" ≠ [] := by
  decide

/-- C8 as amended: a function excluded by the warm-keeper name convention
never receives a put-capacity request and is also skipped by
reconciliation cleanup: a full run leaves its records unchanged and
addresses no provider request to it. -/
theorem claim_C8_amended (env : Env) (m : RecMap) (f : FunctionWithConfig)
    (hf : f ∈ _getConfiguredFunctions env)
    (hwarm : jsIncludes f.name "warmUpPlugin" = true)
    (hnodup : ((_getConfiguredFunctions env).map
      (fun g => _getFunctionName env g.name)).Nodup) :
    (fullRun env m).m (_getFunctionName env f.name) = m (_getFunctionName env f.name) ∧
    ∀ op ∈ (fullRun env m).tr, op.functionNameOf ≠ _getFunctionName env f.name := by
  cases hval : _validateAllFunctions env with
  | cons a l =>
    rw [fullRun_fail env m (by simp [hval])]
    refine ⟨rfl, ?_⟩
    intro op hop
    simp at hop
  | nil =>
    rw [fullRun_pass env m hval]
    constructor
    · dsimp only
      have happly : ∀ g ∈ (_getConfiguredFunctions env).filter
          (fun x => ¬ jsIncludes x.name "warmUpPlugin"),
          _getFunctionName env g.name ≠ _getFunctionName env f.name := by
        intro g hg hcontra
        have hg' := List.mem_filter.1 hg
        have hgf : g = f := List.inj_on_of_nodup_map hnodup hg'.1 hf hcontra
        subst hgf
        rw [hwarm] at hg'
        simp at hg'
      rw [applyPhaseLoop_m_frame env _ _ _ happly]
      rw [validatePhaseLoop_m_mem env _ m f hf hnodup]
      rw [deleteConcurrency_warm env f _ hwarm]
    · intro op hop
      dsimp only at hop
      rw [List.mem_append] at hop
      rcases hop with hop | hop
      · obtain ⟨g, hg, recs, hopg⟩ := validatePhaseLoop_tr_mem env _ m op hop
        obtain ⟨v, rfl⟩ := deleteConcurrency_ops env g recs op hopg
        by_cases hgf : g = f
        · subst hgf
          rw [deleteConcurrency_warm env g recs hwarm] at hopg
          simp at hopg
        · dsimp only [Op.functionNameOf]
          intro hcontra
          exact hgf (List.inj_on_of_nodup_map hnodup hg hf hcontra)
      · obtain ⟨g, hg, recs, hopg⟩ := applyPhaseLoop_tr_mem env _ _ op hop
        have hg' := List.mem_filter.1 hg
        obtain ⟨v, c, rfl⟩ := processFunction_ops env g recs op hopg
        dsimp only [Op.functionNameOf]
        intro hcontra
        have hgf : g = f := List.inj_on_of_nodup_map hnodup hg'.1 hf hcontra
        subst hgf
        rw [hwarm] at hg'
        simp at hg'

/-- Witness for C8's amended theorem: the warm-keeper function of `envW`
keeps its stale record across a full run. -/
theorem claim_C8_amended_witness :
    (fullRun envW mW).m (_getFunctionName envW "wwarmUpPlugin") =
      mW (_getFunctionName envW "wwarmUpPlugin") :=
  (claim_C8_amended envW mW
    { name := "wwarmUpPlugin"
      config := { reserved := none, provisioned := some 5, version := some "1" } }
    (by decide) (by decide) (by decide)).1

theorem fullRun_m_frame (env : Env) (m : RecMap) (g : String)
    (hval : _validateAllFunctions env = [])
    (hg : ∀ f ∈ _getConfiguredFunctions env, _getFunctionName env f.name ≠ g) :
    (fullRun env m).m g = m g := by
  rw [fullRun_pass env m hval]
  dsimp only
  rw [applyPhaseLoop_m_frame env _ _ g (fun f hf => hg f (List.mem_filter.1 hf).1)]
  exact validatePhaseLoop_m_frame env _ m g hg

theorem fullRun_m_at_warm (env : Env) (m : RecMap) (f : FunctionWithConfig)
    (hval : _validateAllFunctions env = [])
    (hf : f ∈ _getConfiguredFunctions env)
    (hnodup : ((_getConfiguredFunctions env).map
      (fun g => _getFunctionName env g.name)).Nodup)
    (hwarm : jsIncludes f.name "warmUpPlugin" = true) :
    (fullRun env m).m (_getFunctionName env f.name) = m (_getFunctionName env f.name) := by
  rw [fullRun_pass env m hval]
  dsimp only
  have happly : ∀ g ∈ (_getConfiguredFunctions env).filter
      (fun x => ¬ jsIncludes x.name "warmUpPlugin"),
      _getFunctionName env g.name ≠ _getFunctionName env f.name := by
    intro g hg hcontra
    have hg' := List.mem_filter.1 hg
    have hgf : g = f := List.inj_on_of_nodup_map hnodup hg'.1 hf hcontra
    subst hgf
    rw [hwarm] at hg'
    simp at hg'
  rw [applyPhaseLoop_m_frame env _ _ _ happly]
  rw [validatePhaseLoop_m_mem env _ m f hf hnodup]
  rw [deleteConcurrency_warm env f _ hwarm]

theorem fullRun_m_at_nonwarm (env : Env) (m : RecMap) (f : FunctionWithConfig)
    (hval : _validateAllFunctions env = [])
    (hf : f ∈ _getConfiguredFunctions env)
    (hnodup : ((_getConfiguredFunctions env).map
      (fun g => _getFunctionName env g.name)).Nodup)
    (hwarm : jsIncludes f.name "warmUpPlugin" = false) :
    (fullRun env m).m (_getFunctionName env f.name) =
      (_processFunction env f
        ((_deleteConcurrency env f (m (_getFunctionName env f.name))).1)).1 := by
  rw [fullRun_pass env m hval]
  dsimp only
  have hmemf : f ∈ (_getConfiguredFunctions env).filter
      (fun x => ¬ jsIncludes x.name "warmUpPlugin") :=
    List.mem_filter.2 ⟨hf, by simp [hwarm]⟩
  have hnodupf : (((_getConfiguredFunctions env).filter
      (fun x => ¬ jsIncludes x.name "warmUpPlugin")).map
      (fun g => _getFunctionName env g.name)).Nodup :=
    List.Nodup.sublist (List.Sublist.map _ (List.filter_sublist _)) hnodup
  rw [applyPhaseLoop_m_mem env _ _ f hmemf hnodupf]
  rw [validatePhaseLoop_m_mem env _ m f hf hnodup]

theorem noDrift_apply (env : Env) (m : RecMap) (f : FunctionWithConfig)
    (hdriftf : NoDriftAt env m f)
    (hwarm : jsIncludes f.name "warmUpPlugin" = false) :
    ∃ V, resolveVersion env (_getFunctionName env f.name) f.config.version = .ok V ∧
      _extractVersionFromArn (mkArn (_getFunctionName env f.name) V) = some V ∧
      env.putOk (_getFunctionName env f.name) V = none ∧
      env.statusResult (_getFunctionName env f.name) V = Except.ok "READY" := by
  have hap : applyOkForB env f = true := hdriftf.2.2.2 hwarm
  rw [applyOkForB] at hap
  cases hres : resolveVersion env (_getFunctionName env f.name) f.config.version with
  | error e =>
    rw [hres] at hap
    simp at hap
  | ok V =>
    rw [hres] at hap
    dsimp only at hap
    simp only [Bool.and_eq_true, decide_eq_true_eq] at hap
    obtain ⟨⟨h1, h2⟩, h3⟩ := hap
    refine ⟨V, rfl, h1, h2, ?_⟩
    revert h3
    split
    · rename_i st hst
      intro h3
      rw [decide_eq_true_eq] at h3
      rw [hst, h3]
    · intro h3
      simp at h3

theorem filter_version_not_mem_nil (l : List PCRecord) :
    l.filter (fun r => r.version ∉ ([] : List String)) = l :=
  List.filter_eq_self.2 (fun a _ => by simp)

theorem deletedVersions_singleton_self (V : String) (r : PCRecord)
    (hx : _extractVersionFromArn r.FunctionArn = some V) :
    deletedVersions V [r] = [] := by
  simp [deletedVersions, extractedVersions, hx]

theorem deletedVersions_filter_self (V : String) (l : List PCRecord)
    (hWF : ∀ r ∈ l, _extractVersionFromArn r.FunctionArn = some r.version) :
    deletedVersions V (l.filter (fun r => r.version = V)) = [] := by
  rw [deletedVersions, extractedVersions, List.filter_eq_nil_iff]
  intro a ha
  obtain ⟨r, hr, hex⟩ := List.mem_filterMap.1 ha
  have hrl := List.mem_filter.1 hr
  rw [hWF r hrl.1] at hex
  injection hex with hex
  have hrv : r.version = V := by simpa using hrl.2
  rw [← hex, hrv]
  simp

theorem run_pair_key (env : Env) (m : RecMap) (f : FunctionWithConfig)
    (hval : _validateAllFunctions env = [])
    (hf : f ∈ _getConfiguredFunctions env)
    (hnodup : ((_getConfiguredFunctions env).map
      (fun g => _getFunctionName env g.name)).Nodup)
    (hdriftf : NoDriftAt env m f) :
    (fullRun env (fullRun env m).m).m (_getFunctionName env f.name) =
      (fullRun env m).m (_getFunctionName env f.name) ∧
    (_deleteConcurrency env f ((fullRun env m).m (_getFunctionName env f.name))).2 = [] := by
  by_cases hwarmb : jsIncludes f.name "warmUpPlugin" = true
  · refine ⟨?_, ?_⟩
    · exact fullRun_m_at_warm env _ f hval hf hnodup hwarmb
    · rw [deleteConcurrency_warm env f _ hwarmb]
  · rw [Bool.not_eq_true] at hwarmb
    obtain ⟨V, hres, hx, hput, hstatus⟩ := noDrift_apply env m f hdriftf hwarmb
    obtain ⟨hlist, hWF, hdel, -⟩ := hdriftf
    have hdelV : ∀ v ∈ deletedVersions V (m (_getFunctionName env f.name)),
        env.deleteOk (_getFunctionName env f.name) v = none := by
      intro v hv
      rw [deletedVersions] at hv
      obtain ⟨hvx, -⟩ := List.mem_filter.1 hv
      obtain ⟨r, hr, hex⟩ := List.mem_filterMap.1 hvx
      rw [hWF r hr] at hex
      injection hex with hex
      rw [← hex]
      exact hdel r hr
    have hdelE : ∀ v ∈ extractedVersions (m (_getFunctionName env f.name)),
        env.deleteOk (_getFunctionName env f.name) v = none := by
      intro v hv
      obtain ⟨r, hr, hex⟩ := List.mem_filterMap.1 hv
      rw [hWF r hr] at hex
      injection hex with hex
      rw [← hex]
      exact hdel r hr
    cases hp : f.config.provisioned with
    | none =>
      have hs1 : (fullRun env m).m (_getFunctionName env f.name) = [] := by
        rw [fullRun_m_at_nonwarm env m f hval hf hnodup hwarmb,
          deleteConcurrency_empty env f _ V hwarmb hres hp hlist hdelE,
          filter_not_extracted_eq_nil _ hWF,
          processFunction_noneCfg env f _ V hres hp]
      have hstep2 := deleteConcurrency_empty env f ([] : List PCRecord) V hwarmb hres hp hlist
        (by intro v hv; simp [extractedVersions] at hv)
      refine ⟨?_, ?_⟩
      · rw [fullRun_m_at_nonwarm env _ f hval hf hnodup hwarmb, hs1, hstep2]
        dsimp only
        simp only [List.filter_nil]
        rw [processFunction_noneCfg env f _ V hres hp]
      · rw [hs1, hstep2]
        simp [extractedVersions]
    | some c =>
      have hc0 : c ≠ 0 := by
        intro h
        exact configured_provisioned_ne_zero env f hf (by rw [hp, h])
      by_cases hcpos : 0 < c
      · have hs1 : (fullRun env m).m (_getFunctionName env f.name) =
            [{ version := V, FunctionArn := mkArn (_getFunctionName env f.name) V,
               count := c }] := by
          rw [fullRun_m_at_nonwarm env m f hval hf hnodup hwarmb,
            deleteConcurrency_positive env f _ V c hwarmb hres hp hc0 hlist hdelV,
            filter_not_deleted_eq V _ hWF,
            processFunction_positive env f _ V c hres hp hcpos hput hstatus]
          dsimp only
          rw [List.filter_filter]
          have hnil : List.filter (fun a => decide (a.version ≠ V) && decide (a.version = V))
              (m (_getFunctionName env f.name)) = [] := by
            rw [List.filter_eq_nil_iff]
            intro a _
            by_cases h : a.version = V <;> simp [h]
          rw [hnil]
          rfl
        have hdV1 : deletedVersions V
            [({ version := V, FunctionArn := mkArn (_getFunctionName env f.name) V,
                count := c } : PCRecord)] = [] :=
          deletedVersions_singleton_self V _ hx
        have hstep2 := deleteConcurrency_positive env f
          [({ version := V, FunctionArn := mkArn (_getFunctionName env f.name) V,
              count := c } : PCRecord)] V c hwarmb hres hp hc0 hlist
          (by rw [hdV1]; intro v hv; simp at hv)
        refine ⟨?_, ?_⟩
        · rw [fullRun_m_at_nonwarm env _ f hval hf hnodup hwarmb, hs1, hstep2, hdV1,
            filter_version_not_mem_nil,
            processFunction_positive env f _ V c hres hp hcpos hput hstatus]
          dsimp only
          simp
        · rw [hs1, hstep2, hdV1]
          simp
      · have hs1 : (fullRun env m).m (_getFunctionName env f.name) =
            (m (_getFunctionName env f.name)).filter (fun r => r.version = V) := by
          rw [fullRun_m_at_nonwarm env m f hval hf hnodup hwarmb,
            deleteConcurrency_positive env f _ V c hwarmb hres hp hc0 hlist hdelV,
            filter_not_deleted_eq V _ hWF,
            processFunction_nonPositive env f _ V hres ?_]
          intro c' hc'
          rw [hp] at hc'
          injection hc' with h
          rw [← h]
          exact hcpos
        have hWF1 : ∀ r ∈ (m (_getFunctionName env f.name)).filter (fun r => r.version = V),
            _extractVersionFromArn r.FunctionArn = some r.version :=
          fun r hr => hWF r (List.mem_filter.1 hr).1
        have hdV1 : deletedVersions V
            ((m (_getFunctionName env f.name)).filter (fun r => r.version = V)) = [] :=
          deletedVersions_filter_self V _ hWF
        have hstep2 := deleteConcurrency_positive env f
          ((m (_getFunctionName env f.name)).filter (fun r => r.version = V)) V c
          hwarmb hres hp hc0 hlist
          (by rw [hdV1]; intro v hv; simp at hv)
        refine ⟨?_, ?_⟩
        · rw [fullRun_m_at_nonwarm env _ f hval hf hnodup hwarmb, hs1, hstep2, hdV1,
            filter_version_not_mem_nil,
            processFunction_nonPositive env f _ V hres ?_]
          intro c' hc'
          rw [hp] at hc'
          injection hc' with h
          rw [← h]
          exact hcpos
        · rw [hs1, hstep2, hdV1]
          simp

/-- C9: the full reconciliation is idempotent: with the manifest unchanged
and no external drift, running it twice produces the same provider end
state at every function as running it once, and the second run issues no
delete-capacity request against the resolved target version, which is
already the sole holder of capacity after the first run. -/
theorem claim_C9 (env : Env) (m : RecMap)
    (hval : _validateAllFunctions env = [])
    (hnodup : ((_getConfiguredFunctions env).map
      (fun g => _getFunctionName env g.name)).Nodup)
    (hdrift : ∀ f ∈ _getConfiguredFunctions env, NoDriftAt env m f) :
    (∀ g, (fullRun env (fullRun env m).m).m g = (fullRun env m).m g) ∧
    (∀ f ∈ _getConfiguredFunctions env, jsIncludes f.name "warmUpPlugin" = false →
      ∀ V, resolveVersion env (_getFunctionName env f.name) f.config.version = Except.ok V →
        Op.deleteOp (_getFunctionName env f.name) V ∉
          (fullRun env (fullRun env m).m).tr) := by
  constructor
  · intro g
    by_cases hg : ∃ f ∈ _getConfiguredFunctions env, _getFunctionName env f.name = g
    · obtain ⟨f, hf, rfl⟩ := hg
      exact (run_pair_key env m f hval hf hnodup (hdrift f hf)).1
    · push_neg at hg
      exact fullRun_m_frame env _ g hval hg
  · intro f hf hwarm V hresV hmem
    rw [fullRun_pass env (fullRun env m).m hval] at hmem
    dsimp only at hmem
    rw [List.mem_append] at hmem
    rcases hmem with hmem | hmem
    · rw [validatePhaseLoop_tr env _ _ hnodup] at hmem
      rw [flatMap_congr_left
        (fun g hg => (run_pair_key env m g hval hg hnodup (hdrift g hg)).2)] at hmem
      rw [flatMap_const_nil] at hmem
      simp at hmem
    · obtain ⟨g, hg, recs, hopg⟩ := applyPhaseLoop_tr_mem env _ _ _ hmem
      obtain ⟨v, c, heq⟩ := processFunction_ops env g recs _ hopg
      simp at heq

/-- Witness for C9: in the drift-free `envA` run, a second full run keeps
the records of `svc-st-f` unchanged and issues no delete against the
resolved sole-holder version `10`. -/
theorem claim_C9_witness :
    (fullRun envA (fullRun envA m0).m).m (_getFunctionName envA "f") =
      (fullRun envA m0).m (_getFunctionName envA "f") ∧
    Op.deleteOp (_getFunctionName envA "f") "10" ∉
      (fullRun envA (fullRun envA m0).m).tr := by
  have h := claim_C9 envA m0 (by decide) (by decide) (by decide)
  refine ⟨h.1 (_getFunctionName envA "f"), ?_⟩
  exact h.2
    { name := "f"
      config := { reserved := some 100, provisioned := some 5, version := some "latest" } }
    (by decide) (by decide) "10" rfl
